import Mathlib

/-!
Verification development for the amaSnag deal bot (`src/main.py`).

The Python program scrapes Amazon deal listings, keeps a PostgreSQL table
of the best discount seen per item (`deals`), a per-item price history
(`price_history`), per-user tracking/preference/keyword tables, and a
`user_notified` table suppressing duplicate notifications.  This file is a
shallow embedding of the database state and of the pipeline functions
`is_new_or_updated_deal`, `scrape_deals` (its per-card processing loop),
`post_deals` (channel broadcast and per-user fan-out) and `post_by_url`
(the manual admin posting path).

Database tables are modelled as association lists, SQL timestamps as a
logical clock (`Nat`), Python floats (prices) as rationals, the Telegram
sends as an event trace, and raised exceptions either as an `Except`
result (where the source lets them propagate) or as an early-exit flag
(where the source catches them in a `try`/`except` block).
-/

namespace AmaSnag

/-- Lower-casing of a string, modelling Python `str.lower()` (ASCII range,
which covers all strings compared by the program). -/
def pyLower (s : String) : String := String.mk (s.data.map Char.toLower)

/-- `startsL n h` holds when the character list `n` is an initial segment
of `h`; helper for the substring test below. -/
def startsL : List Char → List Char → Bool
  | [], _ => true
  | _ :: _, [] => false
  | a :: as, b :: bs => a == b && startsL as bs

/-- `occursIn n h` is the Python `n in h` substring test on character
lists. -/
def occursIn (n : List Char) : List Char → Bool
  | [] => startsL n []
  | b :: bs => startsL n (b :: bs) || occursIn n bs

/-- Python's `a in b` substring test on strings. -/
def strIn (a b : String) : Bool := occursIn a.data b.data

/-- The static `CATEGORIES` dictionary of `src/main.py` (lines 294-313),
in its Python insertion order: pairs of category name and keyword list. -/
def CATEGORIES : List (String × List String) :=
  [ ("Laptops", ["laptop", "notebook", "macbook", "chromebook"]),
    ("Smartphones", ["phone", "smartphone", "galaxy", "iphone", "pixel", "redmi", "oneplus"]),
    ("Audio", ["headphone", "earbuds", "airpods", "earphone", "speaker", "soundbar", "jbl", "sony", "bose"]),
    ("Electronics", ["tv", "television", "monitor", "camera", "dslr", "projector", "kindle", "smart home", "smartwatch"]),
    ("Watches", ["watch", "smartwatch", "fitbit", "garmin"]),
    ("Home & Kitchen", ["kitchen", "cookware", "mixer", "grinder", "purifier", "vacuum", "cleaner", "fridge", "microwave", "blender", "toaster", "coffee maker", "air fryer", "iron", "washing machine", "dishwasher"]),
    ("Fashion", ["shirt", "t-shirt", "jeans", "trousers", "saree", "kurta", "dress", "shoes", "sneaker", "sandals", "heels", "boots", "apparel", "clothing", "footwear", "bag", "wallet", "sunglasses", "jewellery"]),
    ("Footwear", ["shoes", "sneaker", "sandals", "heels", "boots"]),
    ("Books", ["book", "novel", "author", "magazine", "ebook"]),
    ("Gaming", ["gaming", "console", "playstation", "xbox", "nintendo", "game", "controller", "headset"]),
    ("Health & Personal Care", ["health", "personal care", "grooming", "beauty", "fitness", "supplements", "protein", "shampoo", "conditioner", "lotion", "makeup", "perfume"]),
    ("Sports & Outdoors", ["sports", "outdoor", "camping", "cycling", "running", "yoga", "gym", "trekking", "hiking", "fishing", "tent", "sleeping bag"]),
    ("Toys & Games", ["toy", "doll", "action figure", "board game", "puzzle", "lego", "play-doh", "barbie"]),
    ("Automotive", ["car", "bike", "motorcycle", "tyre", "helmet", "accessories", "parts"]),
    ("Office Products", ["office", "stationery", "pen", "notebook", "paper", "printer", "scanner", "shredder", "desk", "chair"]),
    ("Pet Supplies", ["pet", "dog", "cat", "food", "treats", "toys", "bed", "collar", "leash"]),
    ("Baby Products", ["baby", "diaper", "wipes", "formula", "stroller", "car seat", "crib", "baby food"]),
    ("Groceries", ["grocery", "food", "snack", "beverage", "tea", "coffee", "spices", "oil", "flour", "rice", "dal"]) ]

/-- Scan of the category table against a lower-cased title; first entry
with any keyword occurring in the title wins (`get_category`, lines
315-320 of `src/main.py`). -/
def getCategoryAux : List (String × List String) → String → String
  | [], _ => "Deals"
  | (c, kws) :: rest, t => if kws.any (fun w => strIn w t) then c else getCategoryAux rest t

/-- `get_category(title)` of `src/main.py`: lower-case the title, return
the first matching category, defaulting to `"Deals"`. -/
def get_category (title : String) : String := getCategoryAux CATEGORIES (pyLower title)

/-! ### The `deals` table (DealState) -/

/-- `SELECT discount FROM deals WHERE asin = x` over the modelled table. -/
def dealsLookup : List (String × Nat) → String → Option Nat
  | [], _ => none
  | (a, d) :: t, x => if a = x then some d else dealsLookup t x

/-- `UPDATE deals SET discount = v WHERE asin = x`: rewrite every row whose
key matches (the primary key makes it at most one). -/
def dealsUpdate : List (String × Nat) → String → Nat → List (String × Nat)
  | [], _, _ => []
  | (a, d) :: t, x, v =>
      if a = x then (a, v) :: dealsUpdate t x v else (a, d) :: dealsUpdate t x v

/-- `is_new_or_updated_deal(asin, discount)` of `src/main.py` lines
119-135: look up the row; if absent insert it and report `True` (New);
if the observed discount is strictly greater update the row and report
`True` (Improved); otherwise report `False` (Unchanged) with no change.
The result is the flag together with the table after commit. -/
def is_new_or_updated_deal (deals : List (String × Nat)) (asin : String) (discount : Nat) :
    Bool × List (String × Nat) :=
  match dealsLookup deals asin with
  | none => (true, (asin, discount) :: deals)
  | some d => if discount > d then (true, dealsUpdate deals asin discount) else (false, deals)

/-- Repeated observations of one item: run `is_new_or_updated_deal` over a
sequence of discounts, collecting each call's classification flag and the
final table. -/
def runObs (deals : List (String × Nat)) (asin : String) : List Nat → List Bool × List (String × Nat)
  | [] => ([], deals)
  | d :: ds =>
    let r := is_new_or_updated_deal deals asin d
    let rest := runObs r.2 asin ds
    (r.1 :: rest.1, rest.2)

/-- Classification sequence described by the specification: state the
running maximum; a later observation is Improved (`true`) exactly when it
strictly exceeds it. -/
def classifyAux (m : Nat) : List Nat → List Bool
  | [] => []
  | d :: ds => decide (d > m) :: classifyAux (max m d) ds

/-- Specification classification for a fresh item: the first observation
is New (`true`), the rest follow the running maximum. -/
def classifySpec : List Nat → List Bool
  | [] => []
  | d :: ds => true :: classifyAux d ds

/-! ### Lemmas for claim C1 -/

theorem dealsLookup_update (deals : List (String × Nat)) (a : String) (v m : Nat)
    (h : dealsLookup deals a = some m) :
    dealsLookup (dealsUpdate deals a v) a = some v := by
  induction deals with
  | nil => simp [dealsLookup] at h
  | cons hd t ih =>
    obtain ⟨b, d⟩ := hd
    by_cases hb : b = a
    · subst hb
      simp [dealsLookup, dealsUpdate]
    · simp [dealsLookup, dealsUpdate, hb] at h ⊢
      exact ih h

theorem runObs_some (ds : List Nat) :
    ∀ (deals : List (String × Nat)) (a : String) (m : Nat),
      dealsLookup deals a = some m →
      (runObs deals a ds).1 = classifyAux m ds ∧
      dealsLookup (runObs deals a ds).2 a = some (ds.foldl max m) := by
  induction ds with
  | nil => intro deals a m h; simp [runObs, classifyAux, h]
  | cons d ds ih =>
    intro deals a m h
    by_cases hgt : d > m
    · have hstep : is_new_or_updated_deal deals a d = (true, dealsUpdate deals a d) := by
        simp [is_new_or_updated_deal, h, hgt]
      have hlook : dealsLookup (dealsUpdate deals a d) a = some d :=
        dealsLookup_update deals a d m h
      have hmax : max m d = d := Nat.max_eq_right (Nat.le_of_lt hgt)
      obtain ⟨h1, h2⟩ := ih (dealsUpdate deals a d) a d hlook
      constructor
      · simp [runObs, hstep, h1, classifyAux, hgt, hmax]
      · simpa [runObs, hstep, List.foldl, hmax] using h2
    · have hstep : is_new_or_updated_deal deals a d = (false, deals) := by
        simp [is_new_or_updated_deal, h, hgt]
      have hmax : max m d = m := Nat.max_eq_left (Nat.le_of_not_lt hgt)
      obtain ⟨h1, h2⟩ := ih deals a m h
      constructor
      · simp [runObs, hstep, h1, classifyAux, hgt, hmax]
      · simpa [runObs, hstep, List.foldl, hmax] using h2

/-- C1: `is_new_or_updated_deal` classifies the first observation of an
item as New and creates the row; classifies a later observation as
Improved (flag `true`) exactly when its discount strictly exceeds the
stored best discount, updating in place; classifies an equal-or-lower
discount as Unchanged (flag `false`) with no mutation; and over any
sequence of observations starting from no row, the stored discount ends
up equal to the maximum discount observed. -/
theorem c1_record_observation_classification :
    (∀ deals a d, dealsLookup deals a = none →
        is_new_or_updated_deal deals a d = (true, (a, d) :: deals)) ∧
    (∀ deals a d v, dealsLookup deals a = some v → v < d →
        is_new_or_updated_deal deals a d = (true, dealsUpdate deals a d)) ∧
    (∀ deals a d v, dealsLookup deals a = some v → d ≤ v →
        is_new_or_updated_deal deals a d = (false, deals)) ∧
    (∀ deals a d ds, dealsLookup deals a = none →
        (runObs deals a (d :: ds)).1 = classifySpec (d :: ds) ∧
        dealsLookup (runObs deals a (d :: ds)).2 a = some (ds.foldl max d)) := by
  refine ⟨?_, ?_, ?_, ?_⟩
  · intro deals a d h
    simp [is_new_or_updated_deal, h]
  · intro deals a d v h hv
    simp [is_new_or_updated_deal, h, hv]
  · intro deals a d v h hv
    simp [is_new_or_updated_deal, h, Nat.not_lt.mpr hv]
  · intro deals a d ds h
    have hstep : is_new_or_updated_deal deals a d = (true, (a, d) :: deals) := by
      simp [is_new_or_updated_deal, h]
    have hlook : dealsLookup ((a, d) :: deals) a = some d := by simp [dealsLookup]
    obtain ⟨h1, h2⟩ := runObs_some ds ((a, d) :: deals) a d hlook
    constructor
    · simp [runObs, hstep, h1, classifySpec]
    · simpa [runObs, hstep] using h2

/-- Witness for C1 at a concrete run: observations 10, 7, 12 on a fresh
item classify as New, Unchanged, Improved, and the stored discount ends
at 12. -/
theorem c1_record_observation_classification_witness :
    (runObs [] "A1" [10, 7, 12]).1 = [true, false, true] ∧
    dealsLookup (runObs [] "A1" [10, 7, 12]).2 "A1" = some 12 := by
  obtain ⟨h1, h2⟩ :=
    c1_record_observation_classification.2.2.2 [] "A1" 10 [7, 12] rfl
  refine ⟨h1.trans (by decide), h2.trans (by decide)⟩

/-! ### Price-history badge (`post_deals` lines 556-569, `get_price_history`) -/

/-- The advisory badge appended to a channel message. -/
inductive Badge where
  | lowest : Badge
  | dropped : Rat → Badge
  | increased : Rat → Badge
  | noBadge : Badge
deriving DecidableEq

/-- Python `min(prices)` over the (nonempty in use) price list; `0` on an
empty list, a case the caller guards against. -/
def listMin : List Rat → Rat
  | [] => 0
  | p :: ps => ps.foldl min p

/-- Badge computation of `post_deals` lines 558-569: with the 30-day price
window `prices` most-recent-first, emit "Lowest price in last 30 days"
when the current price equals the window minimum, "Price dropped from X"
when strictly below the most recent point, "Price increased from X" when
strictly above it, and nothing otherwise (including empty history). -/
def priceBadge (cp : Rat) (prices : List Rat) : Badge :=
  match prices with
  | [] => Badge.noBadge
  | p0 :: rest =>
    if cp = listMin (p0 :: rest) then Badge.lowest
    else if cp < p0 then Badge.dropped p0
    else if cp > p0 then Badge.increased p0
    else Badge.noBadge

theorem foldl_min_le (l : List Rat) : ∀ a : Rat, l.foldl min a ≤ a := by
  induction l with
  | nil => intro a; simp
  | cons b t ih =>
    intro a
    calc (b :: t : List Rat).foldl min a = t.foldl min (min a b) := rfl
    _ ≤ min a b := ih (min a b)
    _ ≤ a := min_le_left a b

theorem listMin_le_head (p : Rat) (ps : List Rat) : listMin (p :: ps) ≤ p :=
  foldl_min_le ps p

/-- C9: the badge function yields "lowest-in-window" when the current
price equals the window minimum, "dropped from X" when it is strictly
below the most recent point X (and not the minimum), "increased from X"
when strictly above X, and no badge otherwise (including empty history);
in particular most-recent-first history `[80, 90, 100]` with current
price 80 gives the lowest badge, and `[90, 100]` with current price 95
gives "increased from 90". -/
theorem c9_price_badge :
    (∀ cp : Rat, priceBadge cp [] = Badge.noBadge) ∧
    (∀ (cp p0 : Rat) (rest : List Rat), cp = listMin (p0 :: rest) →
        priceBadge cp (p0 :: rest) = Badge.lowest) ∧
    (∀ (cp p0 : Rat) (rest : List Rat), cp ≠ listMin (p0 :: rest) → cp < p0 →
        priceBadge cp (p0 :: rest) = Badge.dropped p0) ∧
    (∀ (cp p0 : Rat) (rest : List Rat), p0 < cp →
        priceBadge cp (p0 :: rest) = Badge.increased p0) ∧
    (∀ (cp p0 : Rat) (rest : List Rat), cp ≠ listMin (p0 :: rest) →
        ¬ cp < p0 → ¬ p0 < cp → priceBadge cp (p0 :: rest) = Badge.noBadge) ∧
    priceBadge 80 [80, 90, 100] = Badge.lowest ∧
    priceBadge 95 [90, 100] = Badge.increased 90 := by
  refine ⟨?_, ?_, ?_, ?_, ?_, by decide, by decide⟩
  · intro cp; rfl
  · intro cp p0 rest h
    simp [priceBadge, h]
  · intro cp p0 rest hne hlt
    simp [priceBadge, hne, hlt]
  · intro cp p0 rest hgt
    have hmin : listMin (p0 :: rest) < cp := lt_of_le_of_lt (listMin_le_head p0 rest) hgt
    have hne : cp ≠ listMin (p0 :: rest) := ne_of_gt hmin
    have hnlt : ¬ cp < p0 := not_lt_of_gt hgt
    simp [priceBadge, hne, hnlt, hgt]
  · intro cp p0 rest hne hnlt hngt
    simp [priceBadge, hne, hnlt, hngt]

/-- Witness for C9 at concrete inputs: price 85 against window
`[90, 100]` is not the window minimum and is below the most recent
point, so the badge is "dropped from 90". -/
theorem c9_price_badge_witness :
    priceBadge 85 [90, 100] = Badge.dropped 90 :=
  c9_price_badge.2.2.1 85 90 [100] (by decide) (by decide)

/-! ### Subscription and notification tables -/

/-- `SELECT min_discount FROM user_preferences WHERE user_id = u`. -/
def prefLookup : List (Nat × Nat) → Nat → Option Nat
  | [], _ => none
  | (v, m) :: t, u => if v = u then some m else prefLookup t u

/-- `get_user_min_discount(user_id)` of `src/main.py` lines 147-155: the
stored preference row, defaulting to 5 when absent. -/
def get_user_min_discount (prefs : List (Nat × Nat)) (u : Nat) : Nat :=
  (prefLookup prefs u).getD 5

/-- `get_users_tracking_asin(asin)` (lines 137-145):
`SELECT user_id FROM user_tracking WHERE asin = a`. -/
def get_users_tracking_asin (tracking : List (Nat × String)) (a : String) : List Nat :=
  (tracking.filter (fun p => p.2 = a)).map (fun p => p.1)

/-- `get_users_for_keyword(keyword)` (lines 260-268):
`SELECT user_id FROM keyword_alerts WHERE keyword = kw.lower()`. -/
def get_users_for_keyword (alerts : List (Nat × String)) (kw : String) : List Nat :=
  (alerts.filter (fun p => p.2 = pyLower kw)).map (fun p => p.1)

/-- `has_user_been_notified(user_id, asin)` (lines 206-214): membership
test in the `user_notified` table. -/
def hasPair (n : List (Nat × String)) (u : Nat) (a : String) : Bool :=
  n.any (fun p => p.1 = u && p.2 = a)

/-- `mark_user_notified(user_id, asin)` (lines 193-204): insert with
`ON CONFLICT DO NOTHING`. -/
def markNotified (n : List (Nat × String)) (u : Nat) (a : String) : List (Nat × String) :=
  if hasPair n u a then n else (u, a) :: n

/-- `clear_user_notifications(asin)` (lines 216-223):
`DELETE FROM user_notified WHERE asin = a`. -/
def clearNotified (n : List (Nat × String)) (a : String) : List (Nat × String) :=
  n.filter (fun p => decide (p.2 ≠ a))

theorem hasPair_iff (n : List (Nat × String)) (u : Nat) (a : String) :
    hasPair n u a = true ↔ (u, a) ∈ n := by
  simp only [hasPair, List.any_eq_true, Bool.and_eq_true, decide_eq_true_eq]
  constructor
  · rintro ⟨⟨v, b⟩, hmem, h1, h2⟩
    subst h1; subst h2; exact hmem
  · intro h
    exact ⟨(u, a), h, rfl, rfl⟩

theorem mem_markNotified (n : List (Nat × String)) (u v : Nat) (a b : String) :
    (v, b) ∈ markNotified n u a ↔ (v, b) ∈ n ∨ (v = u ∧ b = a) := by
  by_cases h : hasPair n u a = true
  · rw [markNotified, if_pos h]
    constructor
    · exact Or.inl
    · rintro (h1 | ⟨rfl, rfl⟩)
      · exact h1
      · exact (hasPair_iff n _ _).mp h
  · rw [markNotified, if_neg h]
    simp only [List.mem_cons, Prod.mk.injEq]
    tauto

theorem mem_clearNotified (n : List (Nat × String)) (u : Nat) (a b : String) :
    (u, b) ∈ clearNotified n a ↔ (u, b) ∈ n ∧ b ≠ a := by
  simp [clearNotified]

theorem mem_get_users_tracking_asin (tracking : List (Nat × String)) (a : String) (u : Nat) :
    u ∈ get_users_tracking_asin tracking a ↔ (u, a) ∈ tracking := by
  simp only [get_users_tracking_asin, List.mem_map, List.mem_filter]
  constructor
  · rintro ⟨⟨v, b⟩, ⟨hmem, hb⟩, hv⟩
    simp only [decide_eq_true_eq] at hb
    subst hv; subst hb; exact hmem
  · intro h
    exact ⟨(u, a), ⟨h, by simp⟩, rfl⟩

theorem mem_get_users_for_keyword (alerts : List (Nat × String)) (kw : String) (u : Nat) :
    u ∈ get_users_for_keyword alerts kw ↔ (u, pyLower kw) ∈ alerts := by
  simp only [get_users_for_keyword, List.mem_map, List.mem_filter]
  constructor
  · rintro ⟨⟨v, b⟩, ⟨hmem, hb⟩, hv⟩
    simp only [decide_eq_true_eq] at hb
    subst hv; subst hb; exact hmem
  · intro h
    exact ⟨(u, pyLower kw), ⟨h, by simp⟩, rfl⟩

/-! ### Database state, candidates and deals -/

/-- The whole persisted state of the bot: one field per PostgreSQL table
created by `init_db` (lines 68-117).  A price-history row carries its
`date` as a logical clock value (`DB.clock` increases at each insert, so
later inserts carry strictly larger timestamps, matching the
`CURRENT_TIMESTAMP` default and the `ORDER BY date DESC` reads). -/
structure DB where
  deals : List (String × Nat)
  user_tracking : List (Nat × String)
  user_preferences : List (Nat × Nat)
  user_notified : List (Nat × String)
  keyword_alerts : List (Nat × String)
  price_history : List (String × Rat × Nat)
  clock : Nat
deriving DecidableEq

/-- A raw product card as extracted by the scraper loop of `scrape_deals`
(lines 355-392): the fields after the per-card HTML parsing, before
validation.  A missing title parses to the sentinel `"No Title Found"`, a
missing or zero discount to `0`, a missing or malformed price to `0`. -/
structure Candidate where
  asin : String
  title : String
  discount_percent : Nat
  current_price : Rat
deriving DecidableEq

/-- An accepted deal record as appended by `scrape_deals` line 406 (the
message-only fields coupon, image and link are omitted). -/
structure Deal where
  asin : String
  title : String
  category : String
  discount_val : Nat
  current_price : Rat
deriving DecidableEq

/-- `add_price_history(asin, price)` (lines 271-278): insert a price
point stamped with the current clock; newest rows sit at the head. -/
def addPriceHistory (db : DB) (a : String) (p : Rat) : DB :=
  { db with price_history := (a, p, db.clock) :: db.price_history, clock := db.clock + 1 }

/-- `get_price_history(asin, days)` (lines 280-291): the price points of
one item not older than the window cutoff, most recent first, as
`(price, date)` pairs. -/
def get_price_history (ph : List (String × Rat × Nat)) (a : String) (cutoff : Nat) :
    List (Rat × Nat) :=
  (ph.filter (fun e => decide (e.1 = a) && decide (cutoff ≤ e.2.2))).map (fun e => e.2)

/-- The price column of the queried window (`prices = [p[0] for p in
price_history]`, line 560). -/
def pricesOf (db : DB) (a : String) (cutoff : Nat) : List Rat :=
  (get_price_history db.price_history a cutoff).map (fun e => e.1)

/-- The per-card body of the `scrape_deals` loop (lines 355-410): reject
a card with no title or a zero discount; otherwise append the price when
positive, reconcile the deal state, and on New/Improved clear the item's
notification records and emit the accepted deal. -/
def processCard (db : DB) (c : Candidate) : DB × Option Deal :=
  if c.title = "No Title Found" ∨ c.discount_percent = 0 then (db, none)
  else
    let db1 := if 0 < c.current_price then addPriceHistory db c.asin c.current_price else db
    let r := is_new_or_updated_deal db1.deals c.asin c.discount_percent
    let db2 : DB := { db1 with deals := r.2 }
    if r.1 then
      ({ db2 with user_notified := clearNotified db2.user_notified c.asin }, some
        { asin := c.asin, title := c.title, category := get_category c.title,
          discount_val := c.discount_percent, current_price := c.current_price })
    else (db2, none)

/-- The full card loop of `scrape_deals`: process each card in order and
collect the accepted deals. -/
def scrapeLoop (db : DB) : List Candidate → DB × List Deal
  | [] => (db, [])
  | c :: cs =>
    let r := processCard db c
    let rest := scrapeLoop r.1 cs
    match r.2 with
    | some d => (rest.1, d :: rest.2)
    | none => (rest.1, rest.2)

/-- Failure-injecting variant of `processCard`: `sf` tells for which item
key the store connection raises inside `is_new_or_updated_deal` (the
source re-raises `psycopg2.OperationalError` from `get_db_connection`,
and the card loop of `scrape_deals` has no handler for it). -/
def processCardE (sf : String → Bool) (db : DB) (c : Candidate) :
    Except Unit (DB × Option Deal) :=
  if c.title = "No Title Found" ∨ c.discount_percent = 0 then Except.ok (db, none)
  else
    let db1 := if 0 < c.current_price then addPriceHistory db c.asin c.current_price else db
    if sf c.asin then Except.error ()
    else
      let r := is_new_or_updated_deal db1.deals c.asin c.discount_percent
      let db2 : DB := { db1 with deals := r.2 }
      if r.1 then
        Except.ok ({ db2 with user_notified := clearNotified db2.user_notified c.asin }, some
          { asin := c.asin, title := c.title, category := get_category c.title,
            discount_val := c.discount_percent, current_price := c.current_price })
      else Except.ok (db2, none)

/-- Failure-injecting variant of the `scrape_deals` card loop: an
exception raised while reconciling one card propagates out of the whole
loop (there is no per-card `try` in the source). -/
def scrapeLoopE (sf : String → Bool) (db : DB) :
    List Candidate → Except Unit (DB × List Deal)
  | [] => Except.ok (db, [])
  | c :: cs =>
    match processCardE sf db c with
    | Except.error e => Except.error e
    | Except.ok r =>
      match scrapeLoopE sf r.1 cs with
      | Except.error e => Except.error e
      | Except.ok rest =>
        match r.2 with
        | some d => Except.ok (rest.1, d :: rest.2)
        | none => Except.ok (rest.1, rest.2)

/-! ### Notification fan-out (`post_deals`, lines 543-618) -/

/-- One observable delivery: a channel broadcast (with its price badge)
or a personal message to a user about an item. -/
inductive Event where
  | channelPost : String → Badge → Event
  | userMsg : Nat → String → Event
deriving DecidableEq

/-- The users of the personal messages in an event trace. -/
def eventUsers (es : List Event) : List Nat :=
  es.filterMap (fun e => match e with
    | Event.userMsg u _ => some u
    | Event.channelPost _ _ => none)

/-- The number of channel broadcasts in an event trace. -/
def chCount (es : List Event) : Nat :=
  (es.filter (fun e => match e with
    | Event.channelPost _ _ => true
    | Event.userMsg _ _ => false)).length

/-- A channel-send oracle that always succeeds. -/
def allOkCh : String → Bool := fun _ => true

/-- A user-send oracle that always succeeds. -/
def allOkU : Nat → Bool := fun _ => true

/-- Tracking-subscriber fan-out of `post_deals` (lines 590-597): for each
user tracking the item, skip if already notified, then send exactly when
the discount reaches the user's minimum preference, marking the user
notified after a successful send.  `uOk u = false` models the Telegram
send raising for `u`: the user is then not marked, and the exception
aborts the rest of the per-deal block (third component `false`). -/
def notifyTracking (uOk : Nat → Bool) (a : String) (dv : Nat) (prefs : List (Nat × Nat)) :
    List Nat → List (Nat × String) → List (Nat × String) × List Event × Bool
  | [], n => (n, [], true)
  | u :: us, n =>
    if hasPair n u a then notifyTracking uOk a dv prefs us n
    else if get_user_min_discount prefs u ≤ dv then
      if uOk u then
        let r := notifyTracking uOk a dv prefs us (markNotified n u a)
        (r.1, Event.userMsg u a :: r.2.1, r.2.2)
      else (n, [], false)
    else notifyTracking uOk a dv prefs us n

/-- Inner user loop of the category-keyword fan-out (lines 603-606):
send to every not-yet-notified subscriber of the matched keyword, with no
minimum-discount check. -/
def notifyKwUsers (uOk : Nat → Bool) (a : String) :
    List Nat → List (Nat × String) → List (Nat × String) × List Event × Bool
  | [], n => (n, [], true)
  | u :: us, n =>
    if hasPair n u a then notifyKwUsers uOk a us n
    else if uOk u then
      let r := notifyKwUsers uOk a us (markNotified n u a)
      (r.1, Event.userMsg u a :: r.2.1, r.2.2)
    else (n, [], false)

/-- Category-keyword fan-out of `post_deals` (lines 600-606): for every
key of the category table whose lower-cased name occurs in the deal's
category, notify the subscribers of that keyword. -/
def notifyCategories (uOk : Nat → Bool) (alerts : List (Nat × String)) (a : String)
    (category : String) :
    List (String × List String) → List (Nat × String) → List (Nat × String) × List Event × Bool
  | [], n => (n, [], true)
  | (cat, _) :: rest, n =>
    if strIn (pyLower cat) (pyLower category) then
      let r := notifyKwUsers uOk a (get_users_for_keyword alerts cat) n
      if r.2.2 then
        let r2 := notifyCategories uOk alerts a category rest r.1
        (r2.1, r.2.1 ++ r2.2.1, r2.2.2)
      else (r.1, r.2.1, false)
    else notifyCategories uOk alerts a category rest n

/-- Title-keyword fan-out of `post_deals` (lines 609-613): for every
`(user, keyword)` subscription whose keyword occurs in the lower-cased
title, send unless the user is already notified, again with no
minimum-discount check. -/
def notifyTitle (uOk : Nat → Bool) (a : String) (title : String) :
    List (Nat × String) → List (Nat × String) → List (Nat × String) × List Event × Bool
  | [], n => (n, [], true)
  | (u, kw) :: rest, n =>
    if strIn (pyLower kw) (pyLower title) then
      if hasPair n u a then notifyTitle uOk a title rest n
      else if uOk u then
        let r := notifyTitle uOk a title rest (markNotified n u a)
        (r.1, Event.userMsg u a :: r.2.1, r.2.2)
      else (n, [], false)
    else notifyTitle uOk a title rest n

/-- The keyword-based stage of the fan-out in isolation (category loop
followed by title loop, as run by `post_deals` after the tracking loop),
with all sends succeeding; returns the updated notification table and
the emitted personal messages. -/
def keywordStage (alerts : List (Nat × String)) (a title category : String)
    (n : List (Nat × String)) : List (Nat × String) × List Event :=
  let r2 := notifyCategories allOkU alerts a category CATEGORIES n
  let r3 := notifyTitle allOkU a title alerts r2.1
  (r3.1, r2.2.1 ++ r3.2.1)

/-- The per-deal body of `post_deals` (lines 546-618).  Everything from
the channel send to the last keyword notification sits in one
`try`/`except` in the source: a failed channel send (`chOk` false)
delivers nothing for this deal, and a failed personal send stops the
remaining fan-out of this deal while keeping already-committed
notification marks.  The price badge is computed from the 30-day window
query before sending. -/
def postOneDeal (chOk : String → Bool) (uOk : Nat → Bool) (cutoff : Nat) (db : DB) (d : Deal) :
    DB × List Event :=
  let badge := priceBadge d.current_price (pricesOf db d.asin cutoff)
  if chOk d.asin then
    let r1 := notifyTracking uOk d.asin d.discount_val db.user_preferences
      (get_users_tracking_asin db.user_tracking d.asin) db.user_notified
    if r1.2.2 then
      let r2 := notifyCategories uOk db.keyword_alerts d.asin d.category CATEGORIES r1.1
      if r2.2.2 then
        let r3 := notifyTitle uOk d.asin d.title db.keyword_alerts r2.1
        ({ db with user_notified := r3.1 },
          Event.channelPost d.asin badge :: (r1.2.1 ++ (r2.2.1 ++ r3.2.1)))
      else ({ db with user_notified := r2.1 },
        Event.channelPost d.asin badge :: (r1.2.1 ++ r2.2.1))
    else ({ db with user_notified := r1.1 }, Event.channelPost d.asin badge :: r1.2.1)
  else (db, [])

/-- The deal loop of `post_deals`: each deal's block runs under its own
`try`/`except`, so the loop always continues with the next deal. -/
def postDeals (chOk : String → Bool) (uOk : Nat → Bool) (cutoff : Nat) (db : DB) :
    List Deal → DB × List Event
  | [] => (db, [])
  | d :: ds =>
    let r := postOneDeal chOk uOk cutoff db d
    let rest := postDeals chOk uOk cutoff r.1 ds
    (rest.1, r.2 ++ rest.2)

/-- One scheduled pipeline run (`post_deals`, line 545 onward): scrape
and reconcile all cards, then fan out the accepted deals. -/
def pipelineRun (chOk : String → Bool) (uOk : Nat → Bool) (cutoff : Nat) (db : DB)
    (cards : List Candidate) : DB × List Event :=
  let s := scrapeLoop db cards
  postDeals chOk uOk cutoff s.1 s.2

/-! ### The manual posting path (`post_by_url`, lines 883-969) -/

/-- The posting tail of `post_by_url` (lines 922-969): compute the badge
from the price window, send the channel message, and only after a
successful send clear the item's notification records; a failed send
reaches the handler with nothing cleared. -/
def proceedManualPost (chOk : Bool) (cutoff : Nat) (db : DB) (d : Deal) : DB × List Event :=
  let badge := priceBadge d.current_price (pricesOf db d.asin cutoff)
  if chOk then
    ({ db with user_notified := clearNotified db.user_notified d.asin },
      [Event.channelPost d.asin badge])
  else (db, [])

/-- `post_by_url` after a successful single-product scrape (lines
915-969): when the scraped discount is positive, run the duplicate check
through `is_new_or_updated_deal` (whose insert or update is committed by
that call); an Unchanged result stops with a duplicate reply, otherwise
the deal is posted.  A zero discount skips the duplicate check entirely
(Python short-circuit on line 917) and posts directly. -/
def post_by_url_model (chOk : Bool) (cutoff : Nat) (db : DB) (d : Deal) : DB × List Event :=
  if 0 < d.discount_val then
    let r := is_new_or_updated_deal db.deals d.asin d.discount_val
    if r.1 then proceedManualPost chOk cutoff { db with deals := r.2 } d
    else ({ db with deals := r.2 }, [])
  else proceedManualPost chOk cutoff db d

/-! ### Preservation lemmas -/

theorem postOneDeal_keeps (chOk : String → Bool) (uOk : Nat → Bool) (cutoff : Nat)
    (db : DB) (d : Deal) :
    (postOneDeal chOk uOk cutoff db d).1.deals = db.deals ∧
    (postOneDeal chOk uOk cutoff db d).1.price_history = db.price_history ∧
    (postOneDeal chOk uOk cutoff db d).1.clock = db.clock ∧
    (postOneDeal chOk uOk cutoff db d).1.user_tracking = db.user_tracking ∧
    (postOneDeal chOk uOk cutoff db d).1.user_preferences = db.user_preferences ∧
    (postOneDeal chOk uOk cutoff db d).1.keyword_alerts = db.keyword_alerts := by
  unfold postOneDeal
  dsimp only
  repeat' split
  all_goals exact ⟨rfl, rfl, rfl, rfl, rfl, rfl⟩

theorem postDeals_keeps (chOk : String → Bool) (uOk : Nat → Bool) (cutoff : Nat) :
    ∀ (ds : List Deal) (db : DB),
    (postDeals chOk uOk cutoff db ds).1.deals = db.deals ∧
    (postDeals chOk uOk cutoff db ds).1.price_history = db.price_history ∧
    (postDeals chOk uOk cutoff db ds).1.clock = db.clock := by
  intro ds
  induction ds with
  | nil => intro db; exact ⟨rfl, rfl, rfl⟩
  | cons d ds ih =>
    intro db
    obtain ⟨h1, h2, h3⟩ := ih (postOneDeal chOk uOk cutoff db d).1
    obtain ⟨k1, k2, k3, _⟩ := postOneDeal_keeps chOk uOk cutoff db d
    exact ⟨by simpa [postDeals, h1] using k1, by simpa [postDeals, h2] using k2,
      by simpa [postDeals, h3] using k3⟩

/-! ### Fan-out loop lemmas (all sends succeeding) -/

theorem notifyTracking_ok (a : String) (dv : Nat) (prefs : List (Nat × Nat)) :
    ∀ (L : List Nat) (n : List (Nat × String)),
      (notifyTracking allOkU a dv prefs L n).2.2 = true := by
  intro L
  induction L with
  | nil => intro n; rfl
  | cons u us ih =>
    intro n
    by_cases h1 : hasPair n u a = true
    · simpa [notifyTracking, h1] using ih n
    · by_cases h2 : get_user_min_discount prefs u ≤ dv
      · simp [notifyTracking, h1, h2, allOkU, ih]
      · simpa [notifyTracking, h1, h2] using ih n

theorem notifyKwUsers_ok (a : String) :
    ∀ (L : List Nat) (n : List (Nat × String)),
      (notifyKwUsers allOkU a L n).2.2 = true := by
  intro L
  induction L with
  | nil => intro n; rfl
  | cons u us ih =>
    intro n
    by_cases h1 : hasPair n u a = true
    · simpa [notifyKwUsers, h1] using ih n
    · simp [notifyKwUsers, h1, allOkU, ih]

theorem notifyCategories_ok (alerts : List (Nat × String)) (a category : String) :
    ∀ (tbl : List (String × List String)) (n : List (Nat × String)),
      (notifyCategories allOkU alerts a category tbl n).2.2 = true := by
  intro tbl
  induction tbl with
  | nil => intro n; rfl
  | cons p rest ih =>
    intro n
    obtain ⟨cat, kws⟩ := p
    by_cases h1 : strIn (pyLower cat) (pyLower category) = true
    · simp [notifyCategories, h1, notifyKwUsers_ok, ih]
    · simpa [notifyCategories, h1] using ih n

theorem notifyTitle_ok (a title : String) :
    ∀ (alerts : List (Nat × String)) (n : List (Nat × String)),
      (notifyTitle allOkU a title alerts n).2.2 = true := by
  intro alerts
  induction alerts with
  | nil => intro n; rfl
  | cons p rest ih =>
    intro n
    obtain ⟨u, kw⟩ := p
    by_cases h1 : strIn (pyLower kw) (pyLower title) = true
    · by_cases h2 : hasPair n u a = true
      · simpa [notifyTitle, h1, h2] using ih n
      · simp [notifyTitle, h1, h2, allOkU, ih]
    · simpa [notifyTitle, h1] using ih n

theorem notifyTracking_events (uOk : Nat → Bool) (a : String) (dv : Nat)
    (prefs : List (Nat × Nat)) :
    ∀ (L : List Nat) (n : List (Nat × String)),
      ∀ e ∈ (notifyTracking uOk a dv prefs L n).2.1, ∃ u, e = Event.userMsg u a := by
  intro L
  induction L with
  | nil => intro n e he; simp [notifyTracking] at he
  | cons u us ih =>
    intro n e he
    by_cases h1 : hasPair n u a = true
    · exact ih n e (by simpa [notifyTracking, h1] using he)
    · by_cases h2 : get_user_min_discount prefs u ≤ dv
      · by_cases h3 : uOk u = true
        · simp only [notifyTracking, h1, h2, h3, if_true, if_false, if_pos, if_neg,
            Bool.false_eq_true, List.mem_cons] at he
          rcases he with he | he
          · exact ⟨u, by simpa using he⟩
          · exact ih _ e (by simpa using he)
        · simp [notifyTracking, h1, h2, h3] at he
      · exact ih n e (by simpa [notifyTracking, h1, h2] using he)

theorem notifyKwUsers_events (uOk : Nat → Bool) (a : String) :
    ∀ (L : List Nat) (n : List (Nat × String)),
      ∀ e ∈ (notifyKwUsers uOk a L n).2.1, ∃ u, e = Event.userMsg u a := by
  intro L
  induction L with
  | nil => intro n e he; simp [notifyKwUsers] at he
  | cons u us ih =>
    intro n e he
    by_cases h1 : hasPair n u a = true
    · exact ih n e (by simpa [notifyKwUsers, h1] using he)
    · by_cases h3 : uOk u = true
      · simp only [notifyKwUsers, h1, h3, if_true, if_false, if_pos, if_neg,
          Bool.false_eq_true, List.mem_cons] at he
        rcases he with he | he
        · exact ⟨u, by simpa using he⟩
        · exact ih _ e (by simpa using he)
      · simp [notifyKwUsers, h1, h3] at he

theorem notifyCategories_events (uOk : Nat → Bool) (alerts : List (Nat × String))
    (a category : String) :
    ∀ (tbl : List (String × List String)) (n : List (Nat × String)),
      ∀ e ∈ (notifyCategories uOk alerts a category tbl n).2.1, ∃ u, e = Event.userMsg u a := by
  intro tbl
  induction tbl with
  | nil => intro n e he; simp [notifyCategories] at he
  | cons p rest ih =>
    intro n e he
    obtain ⟨cat, kws⟩ := p
    by_cases h1 : strIn (pyLower cat) (pyLower category) = true
    · by_cases h2 : (notifyKwUsers uOk a (get_users_for_keyword alerts cat) n).2.2 = true
      · simp only [notifyCategories, h1, h2, if_true, if_pos, List.mem_append] at he
        rcases he with he | he
        · exact notifyKwUsers_events uOk a _ n e he
        · exact ih _ e he
      · simp only [notifyCategories, h1, h2, if_true, if_pos, if_neg,
          Bool.false_eq_true] at he
        exact notifyKwUsers_events uOk a _ n e (by simpa using he)
    · exact ih n e (by simpa [notifyCategories, h1] using he)

theorem notifyTitle_events (uOk : Nat → Bool) (a title : String) :
    ∀ (alerts : List (Nat × String)) (n : List (Nat × String)),
      ∀ e ∈ (notifyTitle uOk a title alerts n).2.1, ∃ u, e = Event.userMsg u a := by
  intro alerts
  induction alerts with
  | nil => intro n e he; simp [notifyTitle] at he
  | cons p rest ih =>
    intro n e he
    obtain ⟨u, kw⟩ := p
    by_cases h1 : strIn (pyLower kw) (pyLower title) = true
    · by_cases h2 : hasPair n u a = true
      · exact ih n e (by simpa [notifyTitle, h1, h2] using he)
      · by_cases h3 : uOk u = true
        · simp only [notifyTitle, h1, h2, h3, if_true, if_false, if_pos, if_neg,
            Bool.false_eq_true, List.mem_cons] at he
          rcases he with he | he
          · exact ⟨u, by simpa using he⟩
          · exact ih _ e (by simpa using he)
        · simp [notifyTitle, h1, h2, h3] at he
    · exact ih n e (by simpa [notifyTitle, h1] using he)

theorem notifyTracking_mem (a : String) (dv : Nat) (prefs : List (Nat × Nat)) :
    ∀ (L : List Nat) (n : List (Nat × String)) (x : Nat),
      x ∈ eventUsers (notifyTracking allOkU a dv prefs L n).2.1 ↔
        (x ∈ L ∧ (x, a) ∉ n ∧ get_user_min_discount prefs x ≤ dv) := by
  intro L
  induction L with
  | nil => intro n x; simp [notifyTracking, eventUsers]
  | cons u us ih =>
    intro n x
    by_cases h1 : hasPair n u a = true
    · rw [show notifyTracking allOkU a dv prefs (u :: us) n
          = notifyTracking allOkU a dv prefs us n by simp [notifyTracking, h1]]
      rw [ih n x]
      constructor
      · rintro ⟨hx, hn, hg⟩
        exact ⟨List.mem_cons_of_mem u hx, hn, hg⟩
      · rintro ⟨hx, hn, hg⟩
        rcases List.mem_cons.mp hx with rfl | hx
        · exact absurd ((hasPair_iff n x a).mp h1) hn
        · exact ⟨hx, hn, hg⟩
    · have hn1 : (u, a) ∉ n := fun hm => h1 ((hasPair_iff n u a).mpr hm)
      by_cases h2 : get_user_min_discount prefs u ≤ dv
      · rw [show (notifyTracking allOkU a dv prefs (u :: us) n).2.1
            = Event.userMsg u a ::
              (notifyTracking allOkU a dv prefs us (markNotified n u a)).2.1 by
            simp [notifyTracking, h1, h2, allOkU]]
        rw [show eventUsers (Event.userMsg u a ::
            (notifyTracking allOkU a dv prefs us (markNotified n u a)).2.1)
          = u :: eventUsers (notifyTracking allOkU a dv prefs us (markNotified n u a)).2.1
          from rfl]
        rw [List.mem_cons, ih (markNotified n u a) x]
        constructor
        · rintro (rfl | ⟨hx, hnm, hg⟩)
          · exact ⟨List.mem_cons_self _ _, hn1, h2⟩
          · refine ⟨List.mem_cons_of_mem u hx, fun hm => hnm ?_, hg⟩
            exact (mem_markNotified n u x a a).mpr (Or.inl hm)
        · rintro ⟨hx, hn, hg⟩
          rcases List.mem_cons.mp hx with rfl | hx
          · exact Or.inl rfl
          · by_cases hxu : x = u
            · exact Or.inl hxu
            · refine Or.inr ⟨hx, fun hm => ?_, hg⟩
              rcases (mem_markNotified n u x a a).mp hm with hm | ⟨hm, _⟩
              · exact hn hm
              · exact hxu hm
      · rw [show notifyTracking allOkU a dv prefs (u :: us) n
            = notifyTracking allOkU a dv prefs us n by simp [notifyTracking, h1, h2]]
        rw [ih n x]
        constructor
        · rintro ⟨hx, hn, hg⟩
          exact ⟨List.mem_cons_of_mem u hx, hn, hg⟩
        · rintro ⟨hx, hn, hg⟩
          rcases List.mem_cons.mp hx with rfl | hx
          · exact absurd hg h2
          · exact ⟨hx, hn, hg⟩

theorem notifyTracking_notified (a : String) (dv : Nat) (prefs : List (Nat × Nat)) :
    ∀ (L : List Nat) (n : List (Nat × String)) (v : Nat) (b : String),
      (v, b) ∈ (notifyTracking allOkU a dv prefs L n).1 ↔
        ((v, b) ∈ n ∨ (b = a ∧ v ∈ L ∧ get_user_min_discount prefs v ≤ dv)) := by
  intro L
  induction L with
  | nil => intro n v b; simp [notifyTracking]
  | cons u us ih =>
    intro n v b
    by_cases h1 : hasPair n u a = true
    · rw [show notifyTracking allOkU a dv prefs (u :: us) n
          = notifyTracking allOkU a dv prefs us n by simp [notifyTracking, h1]]
      rw [ih n v b]
      constructor
      · rintro (hm | ⟨rfl, hv, hg⟩)
        · exact Or.inl hm
        · exact Or.inr ⟨rfl, List.mem_cons_of_mem u hv, hg⟩
      · rintro (hm | ⟨rfl, hv, hg⟩)
        · exact Or.inl hm
        · rcases List.mem_cons.mp hv with rfl | hv
          · exact Or.inl ((hasPair_iff n v _).mp h1)
          · exact Or.inr ⟨rfl, hv, hg⟩
    · by_cases h2 : get_user_min_discount prefs u ≤ dv
      · rw [show (notifyTracking allOkU a dv prefs (u :: us) n).1
            = (notifyTracking allOkU a dv prefs us (markNotified n u a)).1 by
            simp [notifyTracking, h1, h2, allOkU]]
        rw [ih (markNotified n u a) v b, mem_markNotified n u v a b]
        constructor
        · rintro ((hm | ⟨rfl, rfl⟩) | ⟨rfl, hv, hg⟩)
          · exact Or.inl hm
          · exact Or.inr ⟨rfl, List.mem_cons_self _ _, h2⟩
          · exact Or.inr ⟨rfl, List.mem_cons_of_mem u hv, hg⟩
        · rintro (hm | ⟨rfl, hv, hg⟩)
          · exact Or.inl (Or.inl hm)
          · rcases List.mem_cons.mp hv with rfl | hv
            · exact Or.inl (Or.inr ⟨rfl, rfl⟩)
            · exact Or.inr ⟨rfl, hv, hg⟩
      · rw [show notifyTracking allOkU a dv prefs (u :: us) n
            = notifyTracking allOkU a dv prefs us n by simp [notifyTracking, h1, h2]]
        rw [ih n v b]
        constructor
        · rintro (hm | ⟨rfl, hv, hg⟩)
          · exact Or.inl hm
          · exact Or.inr ⟨rfl, List.mem_cons_of_mem u hv, hg⟩
        · rintro (hm | ⟨rfl, hv, hg⟩)
          · exact Or.inl hm
          · rcases List.mem_cons.mp hv with rfl | hv
            · exact absurd hg h2
            · exact Or.inr ⟨rfl, hv, hg⟩

theorem notifyTracking_nodup (a : String) (dv : Nat) (prefs : List (Nat × Nat)) :
    ∀ (L : List Nat) (n : List (Nat × String)),
      (eventUsers (notifyTracking allOkU a dv prefs L n).2.1).Nodup := by
  intro L
  induction L with
  | nil => intro n; simp [notifyTracking, eventUsers]
  | cons u us ih =>
    intro n
    by_cases h1 : hasPair n u a = true
    · rw [show notifyTracking allOkU a dv prefs (u :: us) n
          = notifyTracking allOkU a dv prefs us n by simp [notifyTracking, h1]]
      exact ih n
    · by_cases h2 : get_user_min_discount prefs u ≤ dv
      · rw [show (notifyTracking allOkU a dv prefs (u :: us) n).2.1
            = Event.userMsg u a ::
              (notifyTracking allOkU a dv prefs us (markNotified n u a)).2.1 by
            simp [notifyTracking, h1, h2, allOkU]]
        rw [show eventUsers (Event.userMsg u a ::
            (notifyTracking allOkU a dv prefs us (markNotified n u a)).2.1)
          = u :: eventUsers (notifyTracking allOkU a dv prefs us (markNotified n u a)).2.1
          from rfl]
        refine List.nodup_cons.mpr ⟨fun hu => ?_, ih (markNotified n u a)⟩
        obtain ⟨_, hnm, _⟩ := (notifyTracking_mem a dv prefs us (markNotified n u a) u).mp hu
        exact hnm ((mem_markNotified n u u a a).mpr (Or.inr ⟨rfl, rfl⟩))
      · rw [show notifyTracking allOkU a dv prefs (u :: us) n
            = notifyTracking allOkU a dv prefs us n by simp [notifyTracking, h1, h2]]
        exact ih n

theorem notifyKwUsers_mem (a : String) :
    ∀ (L : List Nat) (n : List (Nat × String)) (x : Nat),
      x ∈ eventUsers (notifyKwUsers allOkU a L n).2.1 ↔ (x ∈ L ∧ (x, a) ∉ n) := by
  intro L
  induction L with
  | nil => intro n x; simp [notifyKwUsers, eventUsers]
  | cons u us ih =>
    intro n x
    by_cases h1 : hasPair n u a = true
    · rw [show notifyKwUsers allOkU a (u :: us) n = notifyKwUsers allOkU a us n by
          simp [notifyKwUsers, h1]]
      rw [ih n x]
      constructor
      · rintro ⟨hx, hn⟩
        exact ⟨List.mem_cons_of_mem u hx, hn⟩
      · rintro ⟨hx, hn⟩
        rcases List.mem_cons.mp hx with rfl | hx
        · exact absurd ((hasPair_iff n x a).mp h1) hn
        · exact ⟨hx, hn⟩
    · have hn1 : (u, a) ∉ n := fun hm => h1 ((hasPair_iff n u a).mpr hm)
      rw [show (notifyKwUsers allOkU a (u :: us) n).2.1
          = Event.userMsg u a :: (notifyKwUsers allOkU a us (markNotified n u a)).2.1 by
          simp [notifyKwUsers, h1, allOkU]]
      rw [show eventUsers (Event.userMsg u a ::
          (notifyKwUsers allOkU a us (markNotified n u a)).2.1)
        = u :: eventUsers (notifyKwUsers allOkU a us (markNotified n u a)).2.1 from rfl]
      rw [List.mem_cons, ih (markNotified n u a) x]
      constructor
      · rintro (rfl | ⟨hx, hnm⟩)
        · exact ⟨List.mem_cons_self _ _, hn1⟩
        · refine ⟨List.mem_cons_of_mem u hx, fun hm => hnm ?_⟩
          exact (mem_markNotified n u x a a).mpr (Or.inl hm)
      · rintro ⟨hx, hn⟩
        rcases List.mem_cons.mp hx with rfl | hx
        · exact Or.inl rfl
        · by_cases hxu : x = u
          · exact Or.inl hxu
          · refine Or.inr ⟨hx, fun hm => ?_⟩
            rcases (mem_markNotified n u x a a).mp hm with hm | ⟨hm, _⟩
            · exact hn hm
            · exact hxu hm

theorem notifyKwUsers_notified (a : String) :
    ∀ (L : List Nat) (n : List (Nat × String)) (v : Nat) (b : String),
      (v, b) ∈ (notifyKwUsers allOkU a L n).1 ↔ ((v, b) ∈ n ∨ (b = a ∧ v ∈ L)) := by
  intro L
  induction L with
  | nil => intro n v b; simp [notifyKwUsers]
  | cons u us ih =>
    intro n v b
    by_cases h1 : hasPair n u a = true
    · rw [show notifyKwUsers allOkU a (u :: us) n = notifyKwUsers allOkU a us n by
          simp [notifyKwUsers, h1]]
      rw [ih n v b]
      constructor
      · rintro (hm | ⟨rfl, hv⟩)
        · exact Or.inl hm
        · exact Or.inr ⟨rfl, List.mem_cons_of_mem u hv⟩
      · rintro (hm | ⟨rfl, hv⟩)
        · exact Or.inl hm
        · rcases List.mem_cons.mp hv with rfl | hv
          · exact Or.inl ((hasPair_iff n v _).mp h1)
          · exact Or.inr ⟨rfl, hv⟩
    · rw [show (notifyKwUsers allOkU a (u :: us) n).1
          = (notifyKwUsers allOkU a us (markNotified n u a)).1 by
          simp [notifyKwUsers, h1, allOkU]]
      rw [ih (markNotified n u a) v b, mem_markNotified n u v a b]
      constructor
      · rintro ((hm | ⟨rfl, rfl⟩) | ⟨rfl, hv⟩)
        · exact Or.inl hm
        · exact Or.inr ⟨rfl, List.mem_cons_self _ _⟩
        · exact Or.inr ⟨rfl, List.mem_cons_of_mem u hv⟩
      · rintro (hm | ⟨rfl, hv⟩)
        · exact Or.inl (Or.inl hm)
        · rcases List.mem_cons.mp hv with rfl | hv
          · exact Or.inl (Or.inr ⟨rfl, rfl⟩)
          · exact Or.inr ⟨rfl, hv⟩

theorem notifyKwUsers_nodup (a : String) :
    ∀ (L : List Nat) (n : List (Nat × String)),
      (eventUsers (notifyKwUsers allOkU a L n).2.1).Nodup := by
  intro L
  induction L with
  | nil => intro n; simp [notifyKwUsers, eventUsers]
  | cons u us ih =>
    intro n
    by_cases h1 : hasPair n u a = true
    · rw [show notifyKwUsers allOkU a (u :: us) n = notifyKwUsers allOkU a us n by
          simp [notifyKwUsers, h1]]
      exact ih n
    · rw [show (notifyKwUsers allOkU a (u :: us) n).2.1
          = Event.userMsg u a :: (notifyKwUsers allOkU a us (markNotified n u a)).2.1 by
          simp [notifyKwUsers, h1, allOkU]]
      rw [show eventUsers (Event.userMsg u a ::
          (notifyKwUsers allOkU a us (markNotified n u a)).2.1)
        = u :: eventUsers (notifyKwUsers allOkU a us (markNotified n u a)).2.1 from rfl]
      refine List.nodup_cons.mpr ⟨fun hu => ?_, ih (markNotified n u a)⟩
      obtain ⟨_, hnm⟩ := (notifyKwUsers_mem a us (markNotified n u a) u).mp hu
      exact hnm ((mem_markNotified n u u a a).mpr (Or.inr ⟨rfl, rfl⟩))

/-- A user matches the category loop over table `tbl` when some table key
occurs (lower-cased) in the deal's category and the user subscribed to
that key as a keyword. -/
def catMatch (alerts : List (Nat × String)) (category : String)
    (tbl : List (String × List String)) (x : Nat) : Prop :=
  ∃ p ∈ tbl, strIn (pyLower p.1) (pyLower category) = true ∧ (x, pyLower p.1) ∈ alerts

/-- A user matches the title loop over subscription list `L` when one of
their subscribed keywords occurs (lower-cased) in the deal's title. -/
def titleMatch (title : String) (L : List (Nat × String)) (x : Nat) : Prop :=
  ∃ kw, (x, kw) ∈ L ∧ strIn (pyLower kw) (pyLower title) = true

theorem catMatch_nil (alerts : List (Nat × String)) (category : String) (x : Nat) :
    ¬ catMatch alerts category [] x := by
  simp [catMatch]

theorem catMatch_cons (alerts : List (Nat × String)) (category : String)
    (p : String × List String) (rest : List (String × List String)) (x : Nat) :
    catMatch alerts category (p :: rest) x ↔
      ((strIn (pyLower p.1) (pyLower category) = true ∧ (x, pyLower p.1) ∈ alerts) ∨
        catMatch alerts category rest x) := by
  simp [catMatch, List.exists_mem_cons_iff]

theorem titleMatch_nil (title : String) (x : Nat) : ¬ titleMatch title [] x := by
  simp [titleMatch]

theorem titleMatch_cons (title : String) (u : Nat) (kw : String)
    (rest : List (Nat × String)) (x : Nat) :
    titleMatch title ((u, kw) :: rest) x ↔
      ((x = u ∧ strIn (pyLower kw) (pyLower title) = true) ∨ titleMatch title rest x) := by
  constructor
  · rintro ⟨w, hw, hs⟩
    rcases List.mem_cons.mp hw with hw | hw
    · obtain ⟨h1, h2⟩ := Prod.mk.injEq .. ▸ hw
      left
      refine ⟨?_, ?_⟩
      · exact congrArg Prod.fst hw
      · have : w = kw := congrArg Prod.snd hw
        exact this ▸ hs
    · exact Or.inr ⟨w, hw, hs⟩
  · rintro (⟨rfl, hs⟩ | ⟨w, hw, hs⟩)
    · exact ⟨kw, List.mem_cons_self _ _, hs⟩
    · exact ⟨w, List.mem_cons_of_mem _ hw, hs⟩

theorem notifyCategories_mem (alerts : List (Nat × String)) (a category : String) :
    ∀ (tbl : List (String × List String)) (n : List (Nat × String)) (x : Nat),
      x ∈ eventUsers (notifyCategories allOkU alerts a category tbl n).2.1 ↔
        (catMatch alerts category tbl x ∧ (x, a) ∉ n) := by
  intro tbl
  induction tbl with
  | nil => intro n x; simp [notifyCategories, eventUsers, catMatch]
  | cons p rest ih =>
    intro n x
    obtain ⟨cat, kws⟩ := p
    by_cases h1 : strIn (pyLower cat) (pyLower category) = true
    · have hok : (notifyKwUsers allOkU a (get_users_for_keyword alerts cat) n).2.2 = true :=
        notifyKwUsers_ok a _ n
      rw [show (notifyCategories allOkU alerts a category ((cat, kws) :: rest) n).2.1
          = (notifyKwUsers allOkU a (get_users_for_keyword alerts cat) n).2.1 ++
            (notifyCategories allOkU alerts a category rest
              (notifyKwUsers allOkU a (get_users_for_keyword alerts cat) n).1).2.1 by
          simp [notifyCategories, h1, hok]]
      rw [show ∀ es fs, eventUsers (es ++ fs) = eventUsers es ++ eventUsers fs from
        fun es fs => List.filterMap_append es fs _]
      rw [List.mem_append, notifyKwUsers_mem a _ n x, ih _ x, catMatch_cons,
        mem_get_users_for_keyword alerts cat x]
      have hmark := notifyKwUsers_notified a (get_users_for_keyword alerts cat) n x a
      rw [hmark, mem_get_users_for_keyword alerts cat x]
      constructor
      · rintro (⟨hm, hn⟩ | ⟨hc, hn⟩)
        · exact ⟨Or.inl ⟨h1, hm⟩, hn⟩
        · exact ⟨Or.inr hc, fun hm => hn (Or.inl hm)⟩
      · rintro ⟨⟨_, hm⟩ | hc, hn⟩
        · exact Or.inl ⟨hm, hn⟩
        · by_cases hm : (x, pyLower cat) ∈ alerts
          · exact Or.inl ⟨hm, hn⟩
          · exact Or.inr ⟨hc, fun h => (h.elim hn (fun h2 => hm h2.2))⟩
    · rw [show notifyCategories allOkU alerts a category ((cat, kws) :: rest) n
          = notifyCategories allOkU alerts a category rest n by
          simp [notifyCategories, h1]]
      rw [ih n x, catMatch_cons]
      constructor
      · rintro ⟨hc, hn⟩
        exact ⟨Or.inr hc, hn⟩
      · rintro ⟨⟨hs, _⟩ | hc, hn⟩
        · exact absurd hs h1
        · exact ⟨hc, hn⟩

theorem notifyCategories_notified (alerts : List (Nat × String)) (a category : String) :
    ∀ (tbl : List (String × List String)) (n : List (Nat × String)) (v : Nat) (b : String),
      (v, b) ∈ (notifyCategories allOkU alerts a category tbl n).1 ↔
        ((v, b) ∈ n ∨ (b = a ∧ catMatch alerts category tbl v)) := by
  intro tbl
  induction tbl with
  | nil => intro n v b; simp [notifyCategories, catMatch]
  | cons p rest ih =>
    intro n v b
    obtain ⟨cat, kws⟩ := p
    by_cases h1 : strIn (pyLower cat) (pyLower category) = true
    · have hok : (notifyKwUsers allOkU a (get_users_for_keyword alerts cat) n).2.2 = true :=
        notifyKwUsers_ok a _ n
      rw [show (notifyCategories allOkU alerts a category ((cat, kws) :: rest) n).1
          = (notifyCategories allOkU alerts a category rest
              (notifyKwUsers allOkU a (get_users_for_keyword alerts cat) n).1).1 by
          simp [notifyCategories, h1, hok]]
      rw [ih _ v b, notifyKwUsers_notified a _ n v b,
        mem_get_users_for_keyword alerts cat v, catMatch_cons]
      constructor
      · rintro ((hm | ⟨rfl, hm⟩) | ⟨rfl, hc⟩)
        · exact Or.inl hm
        · exact Or.inr ⟨rfl, Or.inl ⟨h1, hm⟩⟩
        · exact Or.inr ⟨rfl, Or.inr hc⟩
      · rintro (hm | ⟨rfl, ⟨_, hm⟩ | hc⟩)
        · exact Or.inl (Or.inl hm)
        · exact Or.inl (Or.inr ⟨rfl, hm⟩)
        · exact Or.inr ⟨rfl, hc⟩
    · rw [show notifyCategories allOkU alerts a category ((cat, kws) :: rest) n
          = notifyCategories allOkU alerts a category rest n by
          simp [notifyCategories, h1]]
      rw [ih n v b, catMatch_cons]
      constructor
      · rintro (hm | ⟨rfl, hc⟩)
        · exact Or.inl hm
        · exact Or.inr ⟨rfl, Or.inr hc⟩
      · rintro (hm | ⟨rfl, ⟨hs, _⟩ | hc⟩)
        · exact Or.inl hm
        · exact absurd hs h1
        · exact Or.inr ⟨rfl, hc⟩

theorem notifyCategories_nodup (alerts : List (Nat × String)) (a category : String) :
    ∀ (tbl : List (String × List String)) (n : List (Nat × String)),
      (eventUsers (notifyCategories allOkU alerts a category tbl n).2.1).Nodup := by
  intro tbl
  induction tbl with
  | nil => intro n; simp [notifyCategories, eventUsers]
  | cons p rest ih =>
    intro n
    obtain ⟨cat, kws⟩ := p
    by_cases h1 : strIn (pyLower cat) (pyLower category) = true
    · have hok : (notifyKwUsers allOkU a (get_users_for_keyword alerts cat) n).2.2 = true :=
        notifyKwUsers_ok a _ n
      rw [show (notifyCategories allOkU alerts a category ((cat, kws) :: rest) n).2.1
          = (notifyKwUsers allOkU a (get_users_for_keyword alerts cat) n).2.1 ++
            (notifyCategories allOkU alerts a category rest
              (notifyKwUsers allOkU a (get_users_for_keyword alerts cat) n).1).2.1 by
          simp [notifyCategories, h1, hok]]
      rw [show ∀ es fs, eventUsers (es ++ fs) = eventUsers es ++ eventUsers fs from
        fun es fs => List.filterMap_append es fs _]
      refine List.Nodup.append (notifyKwUsers_nodup a _ n) (ih _) ?_
      intro x hx hx2
      obtain ⟨hxl, hxn⟩ := (notifyKwUsers_mem a _ n x).mp hx
      obtain ⟨_, hxn2⟩ := (notifyCategories_mem alerts a category rest _ x).mp hx2
      exact hxn2 ((notifyKwUsers_notified a _ n x a).mpr (Or.inr ⟨rfl, hxl⟩))
    · rw [show notifyCategories allOkU alerts a category ((cat, kws) :: rest) n
          = notifyCategories allOkU alerts a category rest n by
          simp [notifyCategories, h1]]
      exact ih n

theorem notifyTitle_mem (a title : String) :
    ∀ (L : List (Nat × String)) (n : List (Nat × String)) (x : Nat),
      x ∈ eventUsers (notifyTitle allOkU a title L n).2.1 ↔
        (titleMatch title L x ∧ (x, a) ∉ n) := by
  intro L
  induction L with
  | nil => intro n x; simp [notifyTitle, eventUsers, titleMatch]
  | cons p rest ih =>
    intro n x
    obtain ⟨u, kw⟩ := p
    by_cases h1 : strIn (pyLower kw) (pyLower title) = true
    · by_cases h2 : hasPair n u a = true
      · rw [show notifyTitle allOkU a title ((u, kw) :: rest) n
            = notifyTitle allOkU a title rest n by simp [notifyTitle, h1, h2]]
        rw [ih n x, titleMatch_cons]
        constructor
        · rintro ⟨ht, hn⟩
          exact ⟨Or.inr ht, hn⟩
        · rintro ⟨⟨rfl, _⟩ | ht, hn⟩
          · exact absurd ((hasPair_iff n x a).mp h2) hn
          · exact ⟨ht, hn⟩
      · have hn1 : (u, a) ∉ n := fun hm => h2 ((hasPair_iff n u a).mpr hm)
        rw [show (notifyTitle allOkU a title ((u, kw) :: rest) n).2.1
            = Event.userMsg u a :: (notifyTitle allOkU a title rest (markNotified n u a)).2.1 by
            simp [notifyTitle, h1, h2, allOkU]]
        rw [show eventUsers (Event.userMsg u a ::
            (notifyTitle allOkU a title rest (markNotified n u a)).2.1)
          = u :: eventUsers (notifyTitle allOkU a title rest (markNotified n u a)).2.1
          from rfl]
        rw [List.mem_cons, ih (markNotified n u a) x, titleMatch_cons]
        constructor
        · rintro (rfl | ⟨ht, hnm⟩)
          · exact ⟨Or.inl ⟨rfl, h1⟩, hn1⟩
          · refine ⟨Or.inr ht, fun hm => hnm ?_⟩
            exact (mem_markNotified n u x a a).mpr (Or.inl hm)
        · rintro ⟨⟨rfl, _⟩ | ht, hn⟩
          · exact Or.inl rfl
          · by_cases hxu : x = u
            · exact Or.inl hxu
            · refine Or.inr ⟨ht, fun hm => ?_⟩
              rcases (mem_markNotified n u x a a).mp hm with hm | ⟨hm, _⟩
              · exact hn hm
              · exact hxu hm
    · rw [show notifyTitle allOkU a title ((u, kw) :: rest) n
          = notifyTitle allOkU a title rest n by simp [notifyTitle, h1]]
      rw [ih n x, titleMatch_cons]
      constructor
      · rintro ⟨ht, hn⟩
        exact ⟨Or.inr ht, hn⟩
      · rintro ⟨⟨rfl, hs⟩ | ht, hn⟩
        · exact absurd hs h1
        · exact ⟨ht, hn⟩

theorem notifyTitle_notified (a title : String) :
    ∀ (L : List (Nat × String)) (n : List (Nat × String)) (v : Nat) (b : String),
      (v, b) ∈ (notifyTitle allOkU a title L n).1 ↔
        ((v, b) ∈ n ∨ (b = a ∧ titleMatch title L v)) := by
  intro L
  induction L with
  | nil => intro n v b; simp [notifyTitle, titleMatch]
  | cons p rest ih =>
    intro n v b
    obtain ⟨u, kw⟩ := p
    by_cases h1 : strIn (pyLower kw) (pyLower title) = true
    · by_cases h2 : hasPair n u a = true
      · rw [show notifyTitle allOkU a title ((u, kw) :: rest) n
            = notifyTitle allOkU a title rest n by simp [notifyTitle, h1, h2]]
        rw [ih n v b, titleMatch_cons]
        constructor
        · rintro (hm | ⟨rfl, ht⟩)
          · exact Or.inl hm
          · exact Or.inr ⟨rfl, Or.inr ht⟩
        · rintro (hm | ⟨rfl, ⟨rfl, _⟩ | ht⟩)
          · exact Or.inl hm
          · exact Or.inl ((hasPair_iff n v _).mp h2)
          · exact Or.inr ⟨rfl, ht⟩
      · rw [show (notifyTitle allOkU a title ((u, kw) :: rest) n).1
            = (notifyTitle allOkU a title rest (markNotified n u a)).1 by
            simp [notifyTitle, h1, h2, allOkU]]
        rw [ih (markNotified n u a) v b, mem_markNotified n u v a b, titleMatch_cons]
        constructor
        · rintro ((hm | ⟨rfl, rfl⟩) | ⟨rfl, ht⟩)
          · exact Or.inl hm
          · exact Or.inr ⟨rfl, Or.inl ⟨rfl, h1⟩⟩
          · exact Or.inr ⟨rfl, Or.inr ht⟩
        · rintro (hm | ⟨rfl, ⟨rfl, _⟩ | ht⟩)
          · exact Or.inl (Or.inl hm)
          · exact Or.inl (Or.inr ⟨rfl, rfl⟩)
          · exact Or.inr ⟨rfl, ht⟩
    · rw [show notifyTitle allOkU a title ((u, kw) :: rest) n
          = notifyTitle allOkU a title rest n by simp [notifyTitle, h1]]
      rw [ih n v b, titleMatch_cons]
      constructor
      · rintro (hm | ⟨rfl, ht⟩)
        · exact Or.inl hm
        · exact Or.inr ⟨rfl, Or.inr ht⟩
      · rintro (hm | ⟨rfl, ⟨rfl, hs⟩ | ht⟩)
        · exact Or.inl hm
        · exact absurd hs h1
        · exact Or.inr ⟨rfl, ht⟩

theorem notifyTitle_nodup (a title : String) :
    ∀ (L : List (Nat × String)) (n : List (Nat × String)),
      (eventUsers (notifyTitle allOkU a title L n).2.1).Nodup := by
  intro L
  induction L with
  | nil => intro n; simp [notifyTitle, eventUsers]
  | cons p rest ih =>
    intro n
    obtain ⟨u, kw⟩ := p
    by_cases h1 : strIn (pyLower kw) (pyLower title) = true
    · by_cases h2 : hasPair n u a = true
      · rw [show notifyTitle allOkU a title ((u, kw) :: rest) n
            = notifyTitle allOkU a title rest n by simp [notifyTitle, h1, h2]]
        exact ih n
      · rw [show (notifyTitle allOkU a title ((u, kw) :: rest) n).2.1
            = Event.userMsg u a :: (notifyTitle allOkU a title rest (markNotified n u a)).2.1 by
            simp [notifyTitle, h1, h2, allOkU]]
        rw [show eventUsers (Event.userMsg u a ::
            (notifyTitle allOkU a title rest (markNotified n u a)).2.1)
          = u :: eventUsers (notifyTitle allOkU a title rest (markNotified n u a)).2.1
          from rfl]
        refine List.nodup_cons.mpr ⟨fun hu => ?_, ih (markNotified n u a)⟩
        obtain ⟨_, hnm⟩ := (notifyTitle_mem a title rest (markNotified n u a) u).mp hu
        exact hnm ((mem_markNotified n u u a a).mpr (Or.inr ⟨rfl, rfl⟩))
    · rw [show notifyTitle allOkU a title ((u, kw) :: rest) n
          = notifyTitle allOkU a title rest n by simp [notifyTitle, h1]]
      exact ih n

/-- C7: in the tracking fan-out of `post_deals`, a user tracking the item
who is not yet marked notified receives a personal message exactly when
the observed discount is at least the user's minimum-discount preference,
and that preference defaults to 5 when no preference row exists; a user
below their minimum receives nothing. -/
theorem c7_tracking_min_discount_gate :
    (∀ (tracking : List (Nat × String)) (prefs : List (Nat × Nat))
        (n : List (Nat × String)) (a : String) (dv : Nat) (x : Nat),
      x ∈ eventUsers (notifyTracking allOkU a dv prefs
          (get_users_tracking_asin tracking a) n).2.1 ↔
        ((x, a) ∈ tracking ∧ (x, a) ∉ n ∧ get_user_min_discount prefs x ≤ dv)) ∧
    (∀ (prefs : List (Nat × Nat)) (x : Nat), prefLookup prefs x = none →
        get_user_min_discount prefs x = 5) := by
  constructor
  · intro tracking prefs n a dv x
    rw [notifyTracking_mem, mem_get_users_tracking_asin]
  · intro prefs x h
    simp [get_user_min_discount, h]

/-- Witness for C7: with no preference row user 3 defaults to minimum 5,
and user 7 tracking item `A1` with no preference row is messaged for a
20-percent observation. -/
theorem c7_tracking_min_discount_gate_witness :
    get_user_min_discount [] 3 = 5 ∧
    7 ∈ eventUsers (notifyTracking allOkU "A1" 20 []
        (get_users_tracking_asin [(7, "A1")] "A1") []).2.1 :=
  ⟨c7_tracking_min_discount_gate.2 [] 3 rfl,
    (c7_tracking_min_discount_gate.1 [(7, "A1")] [] [] "A1" 20 7).mpr
      ⟨by decide, by decide, by decide⟩⟩

/-- C8: in the keyword fan-out of `post_deals` (the category loop followed
by the title loop), a user receives a personal message exactly when they
match by a subscribed keyword occurring in the title or by a subscribed
category name occurring in the derived category, and no notification
record exists for them on the item; the minimum-discount preference is
never consulted (the stage takes no discount input at all). -/
theorem c8_keyword_gate_bypasses_min_discount :
    ∀ (alerts n : List (Nat × String)) (a title category : String) (x : Nat),
      x ∈ eventUsers (keywordStage alerts a title category n).2 ↔
        ((catMatch alerts category CATEGORIES x ∨ titleMatch title alerts x) ∧
          (x, a) ∉ n) := by
  intro alerts n a title category x
  unfold keywordStage
  dsimp only
  rw [show ∀ es fs, eventUsers (es ++ fs) = eventUsers es ++ eventUsers fs from
    fun es fs => List.filterMap_append es fs _]
  rw [List.mem_append, notifyCategories_mem, notifyTitle_mem, notifyCategories_notified]
  constructor
  · rintro (⟨hc, hn⟩ | ⟨ht, hn⟩)
    · exact ⟨Or.inl hc, hn⟩
    · exact ⟨Or.inr ht, fun hm => hn (Or.inl hm)⟩
  · rintro ⟨hc | ht, hn⟩
    · exact Or.inl ⟨hc, hn⟩
    · by_cases hcm : catMatch alerts category CATEGORIES x
      · exact Or.inl ⟨hcm, hn⟩
      · refine Or.inr ⟨ht, fun hm => ?_⟩
        rcases hm with hm | ⟨_, hm⟩
        · exact hn hm
        · exact hcm hm

/-! ### Channel-failure behaviour (claim C4) -/

@[simp] theorem addPriceHistory_deals (db : DB) (a : String) (p : Rat) :
    (addPriceHistory db a p).deals = db.deals := rfl

@[simp] theorem addPriceHistory_user_notified (db : DB) (a : String) (p : Rat) :
    (addPriceHistory db a p).user_notified = db.user_notified := rfl

@[simp] theorem addPriceHistory_price_history (db : DB) (a : String) (p : Rat) :
    (addPriceHistory db a p).price_history = (a, p, db.clock) :: db.price_history := rfl

@[simp] theorem addPriceHistory_clock (db : DB) (a : String) (p : Rat) :
    (addPriceHistory db a p).clock = db.clock + 1 := rfl

theorem postOneDeal_channel_fail (chOk : String → Bool) (uOk : Nat → Bool) (cutoff : Nat)
    (db : DB) (d : Deal) (h : chOk d.asin = false) :
    postOneDeal chOk uOk cutoff db d = (db, []) := by
  simp [postOneDeal, h]

/-- Counterexample to C4: a deal with an eligible tracking subscriber
(user 7, item `A1`, 20 percent) whose channel broadcast fails produces no
events at all — the per-user fan-out is skipped, while the same state
with a succeeding broadcast delivers the personal message. -/
theorem c4_counterexample :
    (postOneDeal (fun _ => false) allOkU 0
        ⟨[], [(7, "A1")], [], [], [], [], 0⟩ ⟨"A1", "x", "Deals", 20, 0⟩).2 = [] ∧
    (postOneDeal allOkCh allOkU 0
        ⟨[], [(7, "A1")], [], [], [], [], 0⟩ ⟨"A1", "x", "Deals", 20, 0⟩).2
      = [Event.channelPost "A1" Badge.noBadge, Event.userMsg 7 "A1"] := by
  constructor
  · rfl
  · decide

/-- C4 (amended): in `post_deals` the channel broadcast and all per-user
fan-out for a deal sit inside one `try`/`except`; a channel broadcast
failure therefore aborts the whole per-deal block — neither
tracking-based nor keyword-based personal notifications are sent for
that deal and its state is untouched — while the remaining deals are
still processed normally. -/
theorem c4_amended_channel_fail_skips_deal (chOk : String → Bool) (uOk : Nat → Bool)
    (cutoff : Nat) (db : DB) (d : Deal) (ds : List Deal) (h : chOk d.asin = false) :
    postDeals chOk uOk cutoff db (d :: ds) = postDeals chOk uOk cutoff db ds := by
  show (let r := postOneDeal chOk uOk cutoff db d
    let rest := postDeals chOk uOk cutoff r.1 ds
    ((rest.1, r.2 ++ rest.2) : DB × List Event)) = postDeals chOk uOk cutoff db ds
  rw [postOneDeal_channel_fail chOk uOk cutoff db d h]
  simp

/-- Witness for the amended C4 at the concrete counterexample state. -/
theorem c4_amended_channel_fail_skips_deal_witness :
    postDeals (fun _ => false) allOkU 0
        ⟨[], [(7, "A1")], [], [], [], [], 0⟩ [⟨"A1", "x", "Deals", 20, 0⟩]
      = postDeals (fun _ => false) allOkU 0 ⟨[], [(7, "A1")], [], [], [], [], 0⟩ [] :=
  c4_amended_channel_fail_skips_deal (fun _ => false) allOkU 0
    ⟨[], [(7, "A1")], [], [], [], [], 0⟩ ⟨"A1", "x", "Deals", 20, 0⟩ [] rfl

/-! ### Notification clearing (claim C2) and zero-discount handling (claim C6) -/

theorem processCard_rejected (db : DB) (c : Candidate)
    (h : c.title = "No Title Found" ∨ c.discount_percent = 0) :
    processCard db c = (db, none) := by
  simp [processCard, h]

theorem processCard_some_clears (db : DB) (c : Candidate)
    (h : (processCard db c).2.isSome = true) :
    (processCard db c).1.user_notified = clearNotified db.user_notified c.asin := by
  by_cases hrej : (c.title = "No Title Found" ∨ c.discount_percent = 0)
  · rw [processCard_rejected db c hrej] at h
    simp at h
  · by_cases hp : 0 < c.current_price
    · by_cases hflag : (is_new_or_updated_deal db.deals c.asin c.discount_percent).1 = true
      · simp [processCard, hrej, hp, hflag]
      · simp [processCard, hrej, hp, hflag] at h
    · by_cases hflag : (is_new_or_updated_deal db.deals c.asin c.discount_percent).1 = true
      · simp [processCard, hrej, hp, hflag]
      · simp [processCard, hrej, hp, hflag] at h

/-- Counterexample to C2: on the manual posting path, a fresh 40-percent
observation is committed to the deal state by the duplicate check, but a
failing channel broadcast leaves the stale notification record
`(7, A1)` in place — the clearing is not an atomic companion of the
state update. -/
theorem c2_counterexample :
    (post_by_url_model false 0 ⟨[], [], [], [(7, "A1")], [], [], 0⟩
        ⟨"A1", "x", "Deals", 40, 0⟩).1.deals = [("A1", 40)] ∧
    (post_by_url_model false 0 ⟨[], [], [], [(7, "A1")], [], [], 0⟩
        ⟨"A1", "x", "Deals", 40, 0⟩).1.user_notified = [(7, "A1")] := by
  constructor
  · rfl
  · rfl

/-- C2 (amended): on the scrape path every New/Improved observation is
immediately followed by clearing of the item's notification records; on
the manual posting path the state update from the duplicate check is
committed first, and the notification records are cleared only after a
successful channel broadcast — a failed broadcast leaves them
uncleared. -/
theorem c2_amended_clear_on_paths :
    (∀ (db : DB) (c : Candidate), (processCard db c).2.isSome = true →
        ∀ u, (u, c.asin) ∉ (processCard db c).1.user_notified) ∧
    (∀ (cutoff : Nat) (db : DB) (d : Deal), 0 < d.discount_val →
        (is_new_or_updated_deal db.deals d.asin d.discount_val).1 = true →
        ∀ u, (u, d.asin) ∉ (post_by_url_model true cutoff db d).1.user_notified) ∧
    (∀ (cutoff : Nat) (db : DB) (d : Deal), 0 < d.discount_val →
        (is_new_or_updated_deal db.deals d.asin d.discount_val).1 = true →
        (post_by_url_model false cutoff db d).1.user_notified = db.user_notified) := by
  refine ⟨?_, ?_, ?_⟩
  · intro db c h u hm
    rw [processCard_some_clears db c h] at hm
    exact ((mem_clearNotified _ _ _ _).mp hm).2 rfl
  · intro cutoff db d h0 hflag u hm
    rw [show (post_by_url_model true cutoff db d).1.user_notified
        = clearNotified db.user_notified d.asin by
      simp [post_by_url_model, proceedManualPost, h0, hflag]] at hm
    exact ((mem_clearNotified _ _ _ _).mp hm).2 rfl
  · intro cutoff db d h0 hflag
    simp [post_by_url_model, proceedManualPost, h0, hflag]

/-- Witness for the amended C2: a fresh accepted card clears the stale
record on the scrape path, and the manual path with a failing broadcast
keeps the table unchanged. -/
theorem c2_amended_clear_on_paths_witness :
    (7, "A1") ∉ (processCard ⟨[], [], [], [(7, "A1")], [], [], 0⟩
        ⟨"A1", "t", 40, 0⟩).1.user_notified ∧
    (post_by_url_model false 0 ⟨[], [], [], [(7, "A1")], [], [], 0⟩
        ⟨"A1", "x", "Deals", 40, 0⟩).1.user_notified = [(7, "A1")] :=
  ⟨c2_amended_clear_on_paths.1 ⟨[], [], [], [(7, "A1")], [], [], 0⟩
      ⟨"A1", "t", 40, 0⟩ (by decide) 7,
    c2_amended_clear_on_paths.2.2 0 ⟨[], [], [], [(7, "A1")], [], [], 0⟩
      ⟨"A1", "x", "Deals", 40, 0⟩ (by decide) (by decide)⟩

/-- Counterexample to C6: on the manual posting path a deal whose
discount parsed to zero bypasses the duplicate check entirely and is
still posted to the channel, and its notification records are cleared
after the successful post. -/
theorem c6_counterexample :
    (post_by_url_model true 0 ⟨[], [], [], [(7, "A1")], [], [], 0⟩
        ⟨"A1", "x", "Deals", 0, 0⟩).2 = [Event.channelPost "A1" Badge.noBadge] ∧
    (post_by_url_model true 0 ⟨[], [], [], [(7, "A1")], [], [], 0⟩
        ⟨"A1", "x", "Deals", 0, 0⟩).1.user_notified = [] ∧
    (post_by_url_model true 0 ⟨[], [], [], [(7, "A1")], [], [], 0⟩
        ⟨"A1", "x", "Deals", 0, 0⟩).1.deals = [] := by
  refine ⟨rfl, rfl, rfl⟩

/-- C6 (amended): on the scheduled scrape path a candidate whose discount
is absent or zero is rejected with no effect whatsoever (no price append,
no deal-state change, no clearing, excluded from fan-out); on the manual
admin path a zero-discount product never creates or updates deal state,
but it is still posted to the channel and, on a successful post, the
item's notification records are cleared (a failed post changes
nothing). -/
theorem c6_amended_zero_discount :
    (∀ (db : DB) (c : Candidate), c.discount_percent = 0 →
        processCard db c = (db, none)) ∧
    (∀ (cutoff : Nat) (db : DB) (d : Deal), d.discount_val = 0 →
        (post_by_url_model true cutoff db d).1.deals = db.deals ∧
        (post_by_url_model true cutoff db d).2
          = [Event.channelPost d.asin
              (priceBadge d.current_price (pricesOf db d.asin cutoff))] ∧
        (post_by_url_model true cutoff db d).1.user_notified
          = clearNotified db.user_notified d.asin ∧
        post_by_url_model false cutoff db d = (db, [])) := by
  constructor
  · intro db c h
    exact processCard_rejected db c (Or.inr h)
  · intro cutoff db d h
    have hnot : ¬ 0 < d.discount_val := by simp [h]
    refine ⟨?_, ?_, ?_, ?_⟩
    · simp [post_by_url_model, proceedManualPost, hnot]
    · simp [post_by_url_model, proceedManualPost, hnot]
    · simp [post_by_url_model, proceedManualPost, hnot]
    · simp [post_by_url_model, proceedManualPost, hnot]

/-- Witness for the amended C6 at concrete inputs: a zero-discount card
is dropped by the scrape loop, and a zero-discount manual post leaves the
deal state empty while broadcasting. -/
theorem c6_amended_zero_discount_witness :
    processCard ⟨[], [], [], [], [], [], 0⟩ ⟨"A1", "t", 0, 5⟩
      = (⟨[], [], [], [], [], [], 0⟩, none) ∧
    (post_by_url_model true 0 ⟨[], [], [], [(7, "A1")], [], [], 0⟩
        ⟨"A1", "x", "Deals", 0, 0⟩).1.deals = [] :=
  ⟨c6_amended_zero_discount.1 ⟨[], [], [], [], [], [], 0⟩ ⟨"A1", "t", 0, 5⟩ rfl,
    (c6_amended_zero_discount.2 0 ⟨[], [], [], [(7, "A1")], [], [], 0⟩
      ⟨"A1", "x", "Deals", 0, 0⟩ rfl).1⟩

/-! ### Failure isolation (claim C5) -/

theorem processCardE_noFail (db : DB) (c : Candidate) :
    processCardE (fun _ => false) db c = Except.ok (processCard db c) := by
  by_cases hrej : (c.title = "No Title Found" ∨ c.discount_percent = 0)
  · simp [processCardE, processCard, hrej]
  · simp [processCardE, processCard, hrej, apply_ite]

theorem scrapeLoopE_noFail :
    ∀ (cs : List Candidate) (db : DB),
      scrapeLoopE (fun _ => false) db cs = Except.ok (scrapeLoop db cs) := by
  intro cs
  induction cs with
  | nil => intro db; rfl
  | cons c cs ih =>
    intro db
    cases hr : (processCard db c).2 with
    | none => simp [scrapeLoopE, scrapeLoop, processCardE_noFail, ih, hr]
    | some d => simp [scrapeLoopE, scrapeLoop, processCardE_noFail, ih, hr]

/-- Counterexample to C5: with the store failing for item `A1` alone, the
card loop of `scrape_deals` aborts the whole batch with the raised error
— the second, unaffected candidate `A2` is never reconciled — whereas the
same two-card batch completes with both deals when the store works. -/
theorem c5_counterexample :
    scrapeLoopE (fun a => a == "A1") ⟨[], [], [], [], [], [], 0⟩
        [⟨"A1", "t", 10, 0⟩, ⟨"A2", "t", 10, 0⟩] = Except.error () ∧
    (scrapeLoop ⟨[], [], [], [], [], [], 0⟩
        [⟨"A1", "t", 10, 0⟩, ⟨"A2", "t", 10, 0⟩]).2.length = 2 := by
  exact ⟨rfl, rfl⟩

/-- C5 (amended): a failure during the notifying stage is isolated per
deal (each deal's send block runs under its own handler, so the
remaining deals' events are still produced), and the failure injection
is faithful (no injected failure reproduces the plain loop); but a store
failure while reconciling one candidate propagates out of the unguarded
card loop and aborts the entire batch as an error — it is never folded
into an `Unchanged` classification, and the remaining candidates are
never processed. -/
theorem c5_amended_failure_isolation :
    (∀ (sf : String → Bool) (db : DB) (c : Candidate) (cs : List Candidate),
        ¬(c.title = "No Title Found" ∨ c.discount_percent = 0) → sf c.asin = true →
        scrapeLoopE sf db (c :: cs) = Except.error ()) ∧
    (∀ (chOk : String → Bool) (uOk : Nat → Bool) (cutoff : Nat) (db : DB)
        (d : Deal) (ds : List Deal),
        (postDeals chOk uOk cutoff db (d :: ds)).2
          = (postOneDeal chOk uOk cutoff db d).2 ++
            (postDeals chOk uOk cutoff (postOneDeal chOk uOk cutoff db d).1 ds).2) ∧
    (∀ (db : DB) (cs : List Candidate),
        scrapeLoopE (fun _ => false) db cs = Except.ok (scrapeLoop db cs)) := by
  refine ⟨?_, ?_, ?_⟩
  · intro sf db c cs hrej hsf
    simp [scrapeLoopE, processCardE, hrej, hsf]
  · intro chOk uOk cutoff db d ds
    rfl
  · intro db cs
    exact scrapeLoopE_noFail cs db

/-- Witness for the amended C5 at a concrete input: a single failing
candidate turns the whole loop result into an error. -/
theorem c5_amended_failure_isolation_witness :
    scrapeLoopE (fun a => a == "A1") ⟨[], [], [], [], [], [], 0⟩
        [⟨"A1", "t", 10, 0⟩] = Except.error () :=
  c5_amended_failure_isolation.1 (fun a => a == "A1")
    ⟨[], [], [], [], [], [], 0⟩ ⟨"A1", "t", 10, 0⟩ [] (by decide) (by decide)

/-! ### Replay idempotence (claim C3) -/

theorem is_new_after (deals : List (String × Nat)) (a : String) (dp : Nat) :
    ∃ v, dealsLookup (is_new_or_updated_deal deals a dp).2 a = some v ∧ dp ≤ v := by
  cases hl : dealsLookup deals a with
  | none =>
    exact ⟨dp, by simp [is_new_or_updated_deal, hl, dealsLookup], le_refl _⟩
  | some m =>
    by_cases hgt : dp > m
    · exact ⟨dp, by simp [is_new_or_updated_deal, hl, hgt,
        dealsLookup_update deals a dp m hl], le_refl _⟩
    · exact ⟨m, by simp [is_new_or_updated_deal, hl, hgt], Nat.le_of_not_lt hgt⟩

theorem processCard_deals (db : DB) (c : Candidate)
    (hrej : ¬(c.title = "No Title Found" ∨ c.discount_percent = 0)) :
    (processCard db c).1.deals
      = (is_new_or_updated_deal db.deals c.asin c.discount_percent).2 := by
  by_cases hp : 0 < c.current_price
  · by_cases hflag : (is_new_or_updated_deal db.deals c.asin c.discount_percent).1 = true
    · simp [processCard, hrej, hp, hflag]
    · simp [processCard, hrej, hp, hflag]
  · by_cases hflag : (is_new_or_updated_deal db.deals c.asin c.discount_percent).1 = true
    · simp [processCard, hrej, hp, hflag]
    · simp [processCard, hrej, hp, hflag]

theorem processCard_second (db : DB) (c : Candidate)
    (h : ∃ v, dealsLookup db.deals c.asin = some v ∧ c.discount_percent ≤ v) :
    (processCard db c).2 = none := by
  obtain ⟨v, hv, hle⟩ := h
  by_cases hrej : (c.title = "No Title Found" ∨ c.discount_percent = 0)
  · rw [processCard_rejected db c hrej]
  · have hstep : is_new_or_updated_deal db.deals c.asin c.discount_percent
        = (false, db.deals) := by
      simp [is_new_or_updated_deal, hv, Nat.not_lt.mpr hle]
    by_cases hp : 0 < c.current_price
    · simp [processCard, hrej, hp, hstep]
    · simp [processCard, hrej, hp, hstep]

theorem scrapeLoop_singleton (db : DB) (c : Candidate) :
    scrapeLoop db [c] = ((processCard db c).1, (processCard db c).2.toList) := by
  cases hr : (processCard db c).2 with
  | none => simp [scrapeLoop, hr]
  | some d => simp [scrapeLoop, hr]

theorem pipelineRun_eq (chOk : String → Bool) (uOk : Nat → Bool) (cutoff : Nat)
    (db : DB) (cards : List Candidate) :
    pipelineRun chOk uOk cutoff db cards
      = postDeals chOk uOk cutoff (scrapeLoop db cards).1 (scrapeLoop db cards).2 := rfl

@[simp] theorem chCount_nil : chCount [] = 0 := rfl

@[simp] theorem chCount_cons_channel (a : String) (b : Badge) (es : List Event) :
    chCount (Event.channelPost a b :: es) = chCount es + 1 := by
  simp [chCount]

@[simp] theorem chCount_cons_user (u : Nat) (a : String) (es : List Event) :
    chCount (Event.userMsg u a :: es) = chCount es := by
  simp [chCount]

@[simp] theorem chCount_append (es fs : List Event) :
    chCount (es ++ fs) = chCount es + chCount fs := by
  simp [chCount]

theorem chCount_userMsg_zero (es : List Event)
    (h : ∀ e ∈ es, ∃ u a, e = Event.userMsg u a) : chCount es = 0 := by
  induction es with
  | nil => rfl
  | cons e t ih =>
    obtain ⟨u, a, rfl⟩ := h e (List.mem_cons_self _ _)
    simpa using ih (fun e he => h e (List.mem_cons_of_mem _ he))

theorem postOneDeal_events_structure (chOk : String → Bool) (uOk : Nat → Bool)
    (cutoff : Nat) (db : DB) (d : Deal) :
    (postOneDeal chOk uOk cutoff db d).2 = [] ∨
    ∃ tail, (postOneDeal chOk uOk cutoff db d).2
        = Event.channelPost d.asin
            (priceBadge d.current_price (pricesOf db d.asin cutoff)) :: tail ∧
      ∀ e ∈ tail, ∃ u, e = Event.userMsg u d.asin := by
  unfold postOneDeal
  dsimp only
  split
  · split
    · split
      · refine Or.inr ⟨_, rfl, ?_⟩
        intro e he
        rcases List.mem_append.mp he with he | he
        · exact notifyTracking_events uOk d.asin d.discount_val db.user_preferences _ _ e he
        · rcases List.mem_append.mp he with he | he
          · exact notifyCategories_events uOk db.keyword_alerts d.asin d.category _ _ e he
          · exact notifyTitle_events uOk d.asin d.title _ _ e he
      · refine Or.inr ⟨_, rfl, ?_⟩
        intro e he
        rcases List.mem_append.mp he with he | he
        · exact notifyTracking_events uOk d.asin d.discount_val db.user_preferences _ _ e he
        · exact notifyCategories_events uOk db.keyword_alerts d.asin d.category _ _ e he
    · refine Or.inr ⟨_, rfl, ?_⟩
      intro e he
      exact notifyTracking_events uOk d.asin d.discount_val db.user_preferences _ _ e he
  · exact Or.inl rfl

theorem postOneDeal_chCount_le (chOk : String → Bool) (uOk : Nat → Bool) (cutoff : Nat)
    (db : DB) (d : Deal) : chCount (postOneDeal chOk uOk cutoff db d).2 ≤ 1 := by
  rcases postOneDeal_events_structure chOk uOk cutoff db d with h | ⟨tail, h, htail⟩
  · simp [h]
  · have hz : chCount tail = 0 :=
      chCount_userMsg_zero tail (fun e he => by
        obtain ⟨u, hu⟩ := htail e he
        exact ⟨u, d.asin, hu⟩)
    simp [h, hz]

theorem eventUsers_append (es fs : List Event) :
    eventUsers (es ++ fs) = eventUsers es ++ eventUsers fs :=
  List.filterMap_append es fs _

theorem fanout_users_nodup (a title category : String) (dv : Nat)
    (prefs : List (Nat × Nat)) (alerts : List (Nat × String)) (L : List Nat)
    (n : List (Nat × String)) :
    ∀ n1 n2, n1 = (notifyTracking allOkU a dv prefs L n).1 →
      n2 = (notifyCategories allOkU alerts a category CATEGORIES n1).1 →
      (eventUsers ((notifyTracking allOkU a dv prefs L n).2.1 ++
        ((notifyCategories allOkU alerts a category CATEGORIES n1).2.1 ++
          (notifyTitle allOkU a title alerts n2).2.1))).Nodup := by
  intro n1 n2 h1 h2
  rw [eventUsers_append, eventUsers_append]
  refine List.Nodup.append (notifyTracking_nodup a dv prefs L n) ?_ ?_
  · refine List.Nodup.append (notifyCategories_nodup alerts a category CATEGORIES n1)
      (notifyTitle_nodup a title alerts n2) ?_
    intro x hx hx2
    obtain ⟨hcm, _⟩ := (notifyCategories_mem alerts a category CATEGORIES n1 x).mp hx
    obtain ⟨_, hnm⟩ := (notifyTitle_mem a title alerts n2 x).mp hx2
    exact hnm (h2 ▸ (notifyCategories_notified alerts a category CATEGORIES n1 x a).mpr
      (Or.inr ⟨rfl, hcm⟩))
  · intro x hx hx2
    obtain ⟨hxL, hxn, hxg⟩ := (notifyTracking_mem a dv prefs L n x).mp hx
    have hmark : (x, a) ∈ n1 :=
      h1 ▸ (notifyTracking_notified a dv prefs L n x a).mpr (Or.inr ⟨rfl, hxL, hxg⟩)
    rcases List.mem_append.mp hx2 with hx2 | hx2
    · obtain ⟨_, hnm⟩ := (notifyCategories_mem alerts a category CATEGORIES n1 x).mp hx2
      exact hnm hmark
    · obtain ⟨_, hnm⟩ := (notifyTitle_mem a title alerts n2 x).mp hx2
      exact hnm (h2 ▸ (notifyCategories_notified alerts a category CATEGORIES n1 x a).mpr
        (Or.inl hmark))

theorem postOneDeal_users_nodup (chOk : String → Bool) (cutoff : Nat) (db : DB) (d : Deal) :
    (eventUsers (postOneDeal chOk allOkU cutoff db d).2).Nodup := by
  by_cases hch : chOk d.asin = true
  · have h1 := notifyTracking_ok d.asin d.discount_val db.user_preferences
      (get_users_tracking_asin db.user_tracking d.asin) db.user_notified
    have h2 := notifyCategories_ok db.keyword_alerts d.asin d.category CATEGORIES
      (notifyTracking allOkU d.asin d.discount_val db.user_preferences
        (get_users_tracking_asin db.user_tracking d.asin) db.user_notified).1
    rw [show (postOneDeal chOk allOkU cutoff db d).2
        = Event.channelPost d.asin
            (priceBadge d.current_price (pricesOf db d.asin cutoff)) ::
          ((notifyTracking allOkU d.asin d.discount_val db.user_preferences
              (get_users_tracking_asin db.user_tracking d.asin) db.user_notified).2.1 ++
            ((notifyCategories allOkU db.keyword_alerts d.asin d.category CATEGORIES
                (notifyTracking allOkU d.asin d.discount_val db.user_preferences
                  (get_users_tracking_asin db.user_tracking d.asin) db.user_notified).1).2.1 ++
              (notifyTitle allOkU d.asin d.title db.keyword_alerts
                (notifyCategories allOkU db.keyword_alerts d.asin d.category CATEGORIES
                  (notifyTracking allOkU d.asin d.discount_val db.user_preferences
                    (get_users_tracking_asin db.user_tracking d.asin)
                    db.user_notified).1).1).2.1)) by
      simp [postOneDeal, hch, h1, h2]]
    exact fanout_users_nodup d.asin d.title d.category d.discount_val
      db.user_preferences db.keyword_alerts
      (get_users_tracking_asin db.user_tracking d.asin) db.user_notified _ _ rfl rfl
  · rw [postOneDeal_channel_fail chOk allOkU cutoff db d (by simpa using hch)]
    exact List.nodup_nil

/-- C3: replaying the exact same observation twice in a row never
duplicates notifications: the first run broadcasts at most once and
messages each user at most once (its personal recipients are pairwise
distinct), and the second run classifies the card as Unchanged —
excluding it from the fan-out list — and emits no event of any kind. -/
theorem c3_replay_idempotent (db : DB) (c : Candidate) (cutoff : Nat) :
    (scrapeLoop (pipelineRun allOkCh allOkU cutoff db [c]).1 [c]).2 = [] ∧
    (pipelineRun allOkCh allOkU cutoff
      (pipelineRun allOkCh allOkU cutoff db [c]).1 [c]).2 = [] ∧
    chCount (pipelineRun allOkCh allOkU cutoff db [c]).2 ≤ 1 ∧
    (eventUsers (pipelineRun allOkCh allOkU cutoff db [c]).2).Nodup := by
  have hdb1deals :
      (pipelineRun allOkCh allOkU cutoff db [c]).1.deals = (processCard db c).1.deals := by
    rw [pipelineRun_eq]
    rw [(postDeals_keeps allOkCh allOkU cutoff (scrapeLoop db [c]).2 (scrapeLoop db [c]).1).1]
    rw [scrapeLoop_singleton]
  have hsecond : (processCard (pipelineRun allOkCh allOkU cutoff db [c]).1 c).2 = none := by
    by_cases hrej : (c.title = "No Title Found" ∨ c.discount_percent = 0)
    · rw [processCard_rejected _ c hrej]
    · refine processCard_second _ c ?_
      rw [hdb1deals, processCard_deals db c hrej]
      exact is_new_after db.deals c.asin c.discount_percent
  have hscr2 : (scrapeLoop (pipelineRun allOkCh allOkU cutoff db [c]).1 [c]).2 = [] := by
    rw [scrapeLoop_singleton, hsecond]
    rfl
  refine ⟨hscr2, ?_, ?_, ?_⟩
  · rw [pipelineRun_eq, scrapeLoop_singleton, hsecond]
    rfl
  · rw [pipelineRun_eq, scrapeLoop_singleton]
    cases hr : (processCard db c).2 with
    | none => simp [postDeals]
    | some d =>
      rw [show Option.toList (some d) = [d] from rfl]
      rw [show (postDeals allOkCh allOkU cutoff (processCard db c).1 [d]).2
          = (postOneDeal allOkCh allOkU cutoff (processCard db c).1 d).2 ++ [] from rfl]
      simpa using postOneDeal_chCount_le allOkCh allOkU cutoff (processCard db c).1 d
  · rw [pipelineRun_eq, scrapeLoop_singleton]
    cases hr : (processCard db c).2 with
    | none => simp [postDeals, eventUsers]
    | some d =>
      rw [show Option.toList (some d) = [d] from rfl]
      rw [show (postDeals allOkCh allOkU cutoff (processCard db c).1 [d]).2
          = (postOneDeal allOkCh allOkU cutoff (processCard db c).1 d).2 ++ [] from rfl]
      simpa using postOneDeal_users_nodup allOkCh cutoff (processCard db c).1 d

/-! ### Price appends and badges on the scheduled path (claim C10) -/

theorem processCard_ph (db : DB) (c : Candidate) :
    ∃ new, (processCard db c).1.price_history = new ++ db.price_history ∧
      (∀ e ∈ new, e.1 = c.asin ∧ db.clock ≤ e.2.2) ∧
      db.clock ≤ (processCard db c).1.clock := by
  by_cases hrej : (c.title = "No Title Found" ∨ c.discount_percent = 0)
  · exact ⟨[], by simp [processCard_rejected db c hrej], by simp,
      by simp [processCard_rejected db c hrej]⟩
  · by_cases hp : 0 < c.current_price
    · refine ⟨[(c.asin, c.current_price, db.clock)], ?_, ?_, ?_⟩
      · by_cases hflag : (is_new_or_updated_deal db.deals c.asin c.discount_percent).1 = true
        · simp [processCard, hrej, hp, hflag]
        · simp [processCard, hrej, hp, hflag]
      · intro e he
        rcases List.mem_singleton.mp he with rfl
        exact ⟨rfl, le_refl _⟩
      · by_cases hflag : (is_new_or_updated_deal db.deals c.asin c.discount_percent).1 = true
        · simp [processCard, hrej, hp, hflag]
        · simp [processCard, hrej, hp, hflag]
    · refine ⟨[], ?_, by simp, ?_⟩
      · by_cases hflag : (is_new_or_updated_deal db.deals c.asin c.discount_percent).1 = true
        · simp [processCard, hrej, hp, hflag]
        · simp [processCard, hrej, hp, hflag]
      · by_cases hflag : (is_new_or_updated_deal db.deals c.asin c.discount_percent).1 = true
        · simp [processCard, hrej, hp, hflag]
        · simp [processCard, hrej, hp, hflag]

theorem scrapeLoop_fst (db : DB) (c : Candidate) (cs : List Candidate) :
    (scrapeLoop db (c :: cs)).1 = (scrapeLoop (processCard db c).1 cs).1 := by
  cases hr : (processCard db c).2 with
  | none => simp [scrapeLoop, hr]
  | some d => simp [scrapeLoop, hr]

theorem scrapeLoop_snd (db : DB) (c : Candidate) (cs : List Candidate) :
    (scrapeLoop db (c :: cs)).2
      = (processCard db c).2.toList ++ (scrapeLoop (processCard db c).1 cs).2 := by
  cases hr : (processCard db c).2 with
  | none => simp [scrapeLoop, hr]
  | some d => simp [scrapeLoop, hr]

theorem scrapeLoop_ph :
    ∀ (cs : List Candidate) (db : DB),
      ∃ new, (scrapeLoop db cs).1.price_history = new ++ db.price_history ∧
        (∀ e ∈ new, (∃ c ∈ cs, e.1 = c.asin) ∧ db.clock ≤ e.2.2) ∧
        db.clock ≤ (scrapeLoop db cs).1.clock := by
  intro cs
  induction cs with
  | nil => intro db; exact ⟨[], rfl, by simp, le_refl _⟩
  | cons c cs ih =>
    intro db
    obtain ⟨new1, h1, h1p, h1c⟩ := processCard_ph db c
    obtain ⟨new2, h2, h2p, h2c⟩ := ih (processCard db c).1
    refine ⟨new2 ++ new1, ?_, ?_, ?_⟩
    · rw [scrapeLoop_fst, h2, h1, List.append_assoc]
    · intro e he
      rcases List.mem_append.mp he with he | he
      · obtain ⟨⟨c', hc', ha⟩, ht⟩ := h2p e he
        exact ⟨⟨c', List.mem_cons_of_mem c hc', ha⟩, le_trans h1c ht⟩
      · obtain ⟨ha, ht⟩ := h1p e he
        exact ⟨⟨c, List.mem_cons_self _ _, ha⟩, ht⟩
    · rw [scrapeLoop_fst]
      exact le_trans h1c h2c

theorem processCard_some_fields (db : DB) (c : Candidate) (d : Deal)
    (h : (processCard db c).2 = some d) :
    d.asin = c.asin ∧ d.current_price = c.current_price ∧
      d.discount_val = c.discount_percent := by
  by_cases hrej : (c.title = "No Title Found" ∨ c.discount_percent = 0)
  · rw [processCard_rejected db c hrej] at h
    simp at h
  · by_cases hp : 0 < c.current_price
    · by_cases hflag : (is_new_or_updated_deal db.deals c.asin c.discount_percent).1 = true
      · simp [processCard, hrej, hp, hflag] at h
        exact ⟨congrArg Deal.asin h.symm, congrArg Deal.current_price h.symm,
          congrArg Deal.discount_val h.symm⟩
      · simp [processCard, hrej, hp, hflag] at h
    · by_cases hflag : (is_new_or_updated_deal db.deals c.asin c.discount_percent).1 = true
      · simp [processCard, hrej, hp, hflag] at h
        exact ⟨congrArg Deal.asin h.symm, congrArg Deal.current_price h.symm,
          congrArg Deal.discount_val h.symm⟩
      · simp [processCard, hrej, hp, hflag] at h

theorem processCard_some_ph_pos (db : DB) (c : Candidate)
    (h : (processCard db c).2.isSome = true) (hp : 0 < c.current_price) :
    (processCard db c).1.price_history
      = (c.asin, c.current_price, db.clock) :: db.price_history := by
  by_cases hrej : (c.title = "No Title Found" ∨ c.discount_percent = 0)
  · rw [processCard_rejected db c hrej] at h
    simp at h
  · by_cases hflag : (is_new_or_updated_deal db.deals c.asin c.discount_percent).1 = true
    · simp [processCard, hrej, hp, hflag]
    · simp [processCard, hrej, hp, hflag] at h

theorem scrapeLoop_asins_sublist :
    ∀ (cs : List Candidate) (db : DB),
      List.Sublist ((scrapeLoop db cs).2.map Deal.asin) (cs.map Candidate.asin) := by
  intro cs
  induction cs with
  | nil => intro db; simp [scrapeLoop]
  | cons c cs ih =>
    intro db
    rw [scrapeLoop_snd]
    cases hr : (processCard db c).2 with
    | none =>
      simpa using List.Sublist.cons c.asin (ih (processCard db c).1)
    | some d =>
      obtain ⟨ha, _, _⟩ := processCard_some_fields db c d hr
      simp only [Option.toList, List.map_cons, List.map_append, List.singleton_append,
        List.map, ha]
      exact List.Sublist.cons₂ c.asin (ih (processCard db c).1)

theorem scrapeLoop_price_head :
    ∀ (cards : List Candidate) (db : DB) (cutoff : Nat),
      (cards.map Candidate.asin).Nodup → cutoff ≤ db.clock →
      ∀ d ∈ (scrapeLoop db cards).2, 0 < d.current_price →
        (pricesOf (scrapeLoop db cards).1 d.asin cutoff).head? = some d.current_price := by
  intro cards
  induction cards with
  | nil => intro db cutoff _ _ d hd; simp [scrapeLoop] at hd
  | cons c cs ih =>
    intro db cutoff hnd hcut d hd hdp
    have hnd2 := (List.nodup_cons.mp hnd).2
    have hnotin := (List.nodup_cons.mp hnd).1
    rw [scrapeLoop_snd] at hd
    rcases List.mem_append.mp hd with hd | hd
    · have hsome : (processCard db c).2 = some d := by
        cases hr : (processCard db c).2 with
        | none => rw [hr] at hd; simp at hd
        | some e =>
          rw [hr] at hd
          have hde : d = e := by simpa using hd
          exact congrArg some hde.symm
      obtain ⟨ha, hcp, _⟩ := processCard_some_fields db c d hsome
      have hcpos : 0 < c.current_price := hcp ▸ hdp
      have hph : (processCard db c).1.price_history
          = (c.asin, c.current_price, db.clock) :: db.price_history :=
        processCard_some_ph_pos db c (by rw [hsome]; rfl) hcpos
      obtain ⟨new, h2, h2p, _⟩ := scrapeLoop_ph cs (processCard db c).1
      have hfinal : (scrapeLoop db (c :: cs)).1.price_history
          = new ++ ((c.asin, c.current_price, db.clock) :: db.price_history) := by
        rw [scrapeLoop_fst, h2, hph]
      unfold pricesOf get_price_history
      rw [hfinal, List.filter_append]
      have hfil : (new.filter
          (fun e => decide (e.1 = d.asin) && decide (cutoff ≤ e.2.2))) = [] := by
        refine List.filter_eq_nil_iff.mpr ?_
        intro e he hpred
        obtain ⟨⟨c', hc', ha'⟩, _⟩ := h2p e he
        obtain ⟨hp1, _⟩ := Bool.and_eq_true_iff.mp hpred
        have heq : e.1 = d.asin := of_decide_eq_true hp1
        have : c.asin ∈ cs.map Candidate.asin := by
          refine List.mem_map.mpr ⟨c', hc', ?_⟩
          rw [← ha', heq, ha]
        exact hnotin this
      rw [hfil, List.nil_append]
      simp [List.filter_cons, ha, hcut, hcp]
    · obtain ⟨new1, _, _, h1c⟩ := processCard_ph db c
      rw [scrapeLoop_fst]
      exact ih (processCard db c).1 cutoff hnd2 (le_trans hcut h1c) d hd hdp

theorem priceBadge_head_self (cp : Rat) (prices : List Rat)
    (h : prices.head? = some cp) :
    priceBadge cp prices = Badge.lowest ∨ priceBadge cp prices = Badge.noBadge := by
  cases prices with
  | nil => simp at h
  | cons p0 rest =>
    have hp0 : p0 = cp := by simpa using h
    subst hp0
    by_cases hm : p0 = listMin (p0 :: rest)
    · left
      simp only [priceBadge]
      rw [if_pos hm]
    · right
      simp only [priceBadge]
      rw [if_neg hm, if_neg (lt_irrefl p0), if_neg (lt_irrefl p0)]

theorem pricesOf_postOneDeal (chOk : String → Bool) (uOk : Nat → Bool) (cutoff : Nat)
    (db : DB) (d : Deal) (x : String) (xcut : Nat) :
    pricesOf (postOneDeal chOk uOk cutoff db d).1 x xcut = pricesOf db x xcut := by
  unfold pricesOf get_price_history
  rw [(postOneDeal_keeps chOk uOk cutoff db d).2.1]

theorem postOneDeal_channel_mem (chOk : String → Bool) (uOk : Nat → Bool) (cutoff : Nat)
    (db : DB) (d : Deal) (a : String) (b : Badge)
    (h : Event.channelPost a b ∈ (postOneDeal chOk uOk cutoff db d).2) :
    a = d.asin ∧ b = priceBadge d.current_price (pricesOf db d.asin cutoff) := by
  rcases postOneDeal_events_structure chOk uOk cutoff db d with hev | ⟨tail, hev, htail⟩
  · rw [hev] at h
    simp at h
  · rw [hev] at h
    rcases List.mem_cons.mp h with h | h
    · have := Event.channelPost.injEq .. ▸ h
      simp only [Event.channelPost.injEq] at h
      exact h
    · obtain ⟨u, hu⟩ := htail _ h
      simp at hu

theorem postDeals_channel_mem (chOk : String → Bool) (uOk : Nat → Bool) (cutoff : Nat) :
    ∀ (ds : List Deal) (db : DB) (a : String) (b : Badge),
      Event.channelPost a b ∈ (postDeals chOk uOk cutoff db ds).2 →
      ∃ d ∈ ds, a = d.asin ∧
        b = priceBadge d.current_price (pricesOf db d.asin cutoff) := by
  intro ds
  induction ds with
  | nil => intro db a b h; simp [postDeals, eventUsers] at h
  | cons d ds ih =>
    intro db a b h
    rw [show (postDeals chOk uOk cutoff db (d :: ds)).2
        = (postOneDeal chOk uOk cutoff db d).2 ++
          (postDeals chOk uOk cutoff (postOneDeal chOk uOk cutoff db d).1 ds).2
        from rfl] at h
    rcases List.mem_append.mp h with h | h
    · obtain ⟨ha, hb⟩ := postOneDeal_channel_mem chOk uOk cutoff db d a b h
      exact ⟨d, List.mem_cons_self _ _, ha, hb⟩
    · obtain ⟨e, he, ha, hb⟩ := ih (postOneDeal chOk uOk cutoff db d).1 a b h
      rw [pricesOf_postOneDeal] at hb
      exact ⟨e, List.mem_cons_of_mem d he, ha, hb⟩

/-- Counterexample to C10: two accepted observations of the same item in
one scraped batch (prices 100 then 90, discounts 10 then 20) both append
their prices before the fan-out, so when `post_deals` formats the first
deal the most recent window entry is the second observation's price, and
the scheduled path does emit a "price increased from 90" badge. -/
theorem c10_counterexample :
    (pipelineRun allOkCh allOkU 0 ⟨[], [], [], [], [], [], 0⟩
        [⟨"A1", "t", 10, 100⟩, ⟨"A1", "t", 20, 90⟩]).2
      = [Event.channelPost "A1" (Badge.increased 90),
          Event.channelPost "A1" Badge.lowest] := by
  decide

/-- C10 (amended): provided no itemId occurs twice in the scraped batch
and the window cutoff is not in the future, every accepted observation
with a positive price finds its own price as the most recent entry of
the queried window, its badge is "lowest in window" or no badge, and no
"price dropped" or "price increased" channel post is ever emitted for it
on the scheduled path. -/
theorem c10_amended_same_run_badges (db : DB) (cards : List Candidate) (cutoff : Nat)
    (h1 : (cards.map Candidate.asin).Nodup) (h2 : cutoff ≤ db.clock) :
    ∀ d ∈ (scrapeLoop db cards).2, 0 < d.current_price →
      (pricesOf (scrapeLoop db cards).1 d.asin cutoff).head? = some d.current_price ∧
      (priceBadge d.current_price (pricesOf (scrapeLoop db cards).1 d.asin cutoff)
          = Badge.lowest ∨
        priceBadge d.current_price (pricesOf (scrapeLoop db cards).1 d.asin cutoff)
          = Badge.noBadge) ∧
      ∀ (chOk : String → Bool) (uOk : Nat → Bool) (x : Rat),
        Event.channelPost d.asin (Badge.dropped x)
            ∉ (pipelineRun chOk uOk cutoff db cards).2 ∧
        Event.channelPost d.asin (Badge.increased x)
            ∉ (pipelineRun chOk uOk cutoff db cards).2 := by
  intro d hd hdp
  have hhead := scrapeLoop_price_head cards db cutoff h1 h2 d hd hdp
  have hbadge := priceBadge_head_self d.current_price _ hhead
  refine ⟨hhead, hbadge, ?_⟩
  intro chOk uOk x
  have huna : ((scrapeLoop db cards).2.map Deal.asin).Nodup :=
    List.Nodup.sublist (scrapeLoop_asins_sublist cards db) h1
  constructor <;> intro hmem
  · rw [pipelineRun_eq] at hmem
    obtain ⟨e, he, ha, hb⟩ := postDeals_channel_mem chOk uOk cutoff _ _ _ _ hmem
    have hde : e = d :=
      List.inj_on_of_nodup_map huna he hd ha.symm
    subst hde
    rcases hbadge with h3 | h3 <;>
      exact absurd (hb.trans h3) (by simp)
  · rw [pipelineRun_eq] at hmem
    obtain ⟨e, he, ha, hb⟩ := postDeals_channel_mem chOk uOk cutoff _ _ _ _ hmem
    have hde : e = d :=
      List.inj_on_of_nodup_map huna he hd ha.symm
    subst hde
    rcases hbadge with h3 | h3 <;>
      exact absurd (hb.trans h3) (by simp)

/-- Witness for the amended C10 at a concrete input: a single accepted
card with price 100 finds its own price at the head of the window. -/
theorem c10_amended_same_run_badges_witness :
    (pricesOf (scrapeLoop ⟨[], [], [], [], [], [], 0⟩
        [⟨"A1", "t", 10, 100⟩]).1 "A1" 0).head? = some 100 :=
  (c10_amended_same_run_badges ⟨[], [], [], [], [], [], 0⟩
    [⟨"A1", "t", 10, 100⟩] 0 (by decide) (by decide)
    ⟨"A1", "t", "Deals", 10, 100⟩ (by decide) (by decide)).1

end AmaSnag
